import Mathlib

/-!
Shallow embedding of the Polytope Executive Agent core
(backend/engine/executor.py, backend/engine/planner.py,
backend/engine/critic.py, backend/orchestrator.py, backend/config.py,
backend/models.py) and proofs about the Plan/Execute/Critique control loop.

External collaborators (the model router, adapters, the vault, wall-clock
time) are oracles: function-typed parameters whose outcomes the theorems
quantify over. Persistence helpers (the SQL task records) and append-only
log/telemetry fields are side channels no claim depends on and are not
represented.
-/

/-- models.py TaskStatus. -/
inductive TaskStatus where
  | pending
  | running
  | completed
  | failed
  | skipped
deriving DecidableEq, Repr

/-- A value stored in a task's `args` dict. The source stores arbitrary
values, but the core only ever writes strings (description, objective
context) and, under the dependency-output key, a dict mapping a dependency
id to that dependency's result (an optional string). -/
inductive ArgVal where
  | s (v : String)
  | depMap (m : List (String × Option String))
deriving DecidableEq, Repr

/-- Python dict assignment `args[k] = v`: replace in place, else append. -/
def setArg : List (String × ArgVal) → String → ArgVal → List (String × ArgVal)
  | [], k, v => [(k, v)]
  | (k0, v0) :: rest, k, v =>
      if k0 = k then (k, v) :: rest else (k0, v0) :: setArg rest k v

/-- Python dict lookup `args.get(k)`. -/
def lookupArg (args : List (String × ArgVal)) (k : String) : Option ArgVal :=
  (args.find? (fun p => p.1 == k)).map Prod.snd

/-- Wrap a name in single quotes, as the source's f-strings do. -/
def squote (a : String) : String := "'" ++ a ++ "'"

/-- models.py DAGTask (runtime task object). `retry_count`, `logs` and
`priority_score` are telemetry no claim depends on and are omitted.
`result` starts as None and is set by the executors. -/
structure DAGTask where
  id : String
  action : String
  args : List (String × ArgVal)
  dependencies : List String
  status : TaskStatus := .pending
  result : Option String := none
deriving DecidableEq, Repr

/-- Python `tasks[tid]` on a dict kept in insertion order, as a lookup in an
id-keyed list. -/
def findTask (tasks : List DAGTask) (tid : String) : Option DAGTask :=
  tasks.find? (fun t => t.id == tid)

def statusOf (tasks : List DAGTask) (tid : String) : Option TaskStatus :=
  (findTask tasks tid).map (·.status)

def resultOf (tasks : List DAGTask) (tid : String) : Option (Option String) :=
  (findTask tasks tid).map (·.result)

/-- Replace the task with id `t.id` by `t` (in-place mutation of the dict
entry; position preserved). -/
def updateTask : List DAGTask → DAGTask → List DAGTask
  | [], _ => []
  | t0 :: rest, t => if t0.id = t.id then t :: rest else t0 :: updateTask rest t

/-- config.py Settings: the execution-governance fields with their defaults
(MAX_AUTONOMY_RETRIES = 3, CRITIC_THRESHOLD = 0.75, MAX_CONCURRENT_TASKS = 5). -/
structure GovSettings where
  maxRetries : Nat := 3
  threshold : ℚ := mkRat 3 4
  maxConcurrent : Nat := 5
deriving DecidableEq

def defaultSettings : GovSettings := {}

/-! ## Critic Gate (backend/engine/critic.py) -/

/-- The value found under "score" in the dict the router's critique call
returned: either a number `float()` accepts, or a value on which `float()`
raises. -/
inductive ScoreField where
  | num (q : ℚ)
  | unparseable
deriving DecidableEq

/-- The dict returned by `router.critique_result` (fields may be absent). -/
structure CriticEvalDict where
  score : Option ScoreField := none
  feedback : Option String := none

/-- Critic.evaluate (critic.py 16-33). The awaited router call is the
oracle argument: `.error ()` models the call raising. Inside the try block,
`float(evaluation.get("score", 0.0))` raises exactly when the present score
field is unparseable; every exception is caught and degrades to
`(False, 0.0, "Critic system error.")`. Otherwise
`passed = score >= self.threshold`. The function is total: `evaluate`
never propagates an exception. -/
def criticEvaluate (threshold : ℚ) (call : Except Unit CriticEvalDict) :
    Bool × ℚ × String :=
  match call with
  | .error _ => (false, 0, "Critic system error.")
  | .ok d =>
      match d.score.getD (.num 0) with
      | .unparseable => (false, 0, "Critic system error.")
      | .num q =>
          (decide (threshold ≤ q), q, d.feedback.getD "No feedback provided.")

/-- critic.py 12: `threshold: float = 0.75`. -/
def criticDefaultThreshold : ℚ := mkRat 3 4

/-! ## DAG Executor (backend/engine/executor.py) -/

/-- Engine-side execution environment. `registry a = some f` means an
adapter is registered under name `a`; `f args i` is the outcome of its
`execute(args)` call on tenacity attempt `i` (1-based): `.ok` the returned
value already passed through `str(...)`, `.error` the raised exception's
message. `timedOut tid` is the wall-clock oracle: whether `asyncio.wait_for`'s
60-second budget expires for the task with id `tid` before the (retried)
adapter call returns. -/
structure EngineEnv where
  registry : String → Option (List (String × ArgVal) → Nat → Except String String)
  timedOut : String → Bool

/-- One attempt of the body of Executor._execute_adapter (executor.py
117-126): resolve the adapter; an unknown action returns the mock string for
the three fallback names and raises AdapterNotFoundError otherwise. -/
def executeAdapterBody (env : EngineEnv) (action : String)
    (args : List (String × ArgVal)) (attempt : Nat) : Except String String :=
  match env.registry action with
  | none =>
      if action = "summarize" ∨ action = "analyze_data" ∨ action = "web_search" then
        .ok ("[MOCK] Result for " ++ action)
      else
        .error ("No adapter found for action " ++ squote action)
  | some f => f args attempt

/-- tenacity `@retry(stop=stop_after_attempt(3), reraise=True)` applied to a
body `f` indexed by the attempt number: run attempts `i, i+1, ...` with
`extra` further attempts allowed after the current one; return the first
success, or (reraise=True) the error of the last attempt, together with the
number of attempts performed. The exponential backoff delays only consume
wall-clock time and are not represented. -/
def tenacityGo (f : Nat → Except String String) : Nat → Nat →
    Except String String × Nat
  | i, 0 => (f i, i)
  | i, extra + 1 =>
      match f i with
      | .ok r => (.ok r, i)
      | .error _ => tenacityGo f (i + 1) extra

/-- Executor._execute_adapter with its retry decorator (3 attempts total),
instrumented to also report how many attempts (adapter-registry lookups)
were performed. -/
def executeAdapterCounted (env : EngineEnv) (action : String)
    (args : List (String × ArgVal)) : Except String String × Nat :=
  tenacityGo (executeAdapterBody env action args) 1 2

def executeAdapter (env : EngineEnv) (action : String)
    (args : List (String × ArgVal)) : Except String String :=
  (executeAdapterCounted env action args).1

/-- The dep_context comprehension of executor.py 83-87: each completed
dependency's id mapped to that dependency's result. (The source indexes
`all_tasks[dep]`, which would raise KeyError for an absent id;
`execute_dag` only starts tasks whose dependencies are all present and
completed, so on every reachable call the filterMap agrees.) -/
def depContext (allTasks : List DAGTask) (t : DAGTask) :
    List (String × Option String) :=
  t.dependencies.filterMap fun d =>
    match findTask allTasks d with
    | some dt => if dt.status = .completed then some (d, dt.result) else none
    | none => none

/-- Executor._run_task (executor.py 77-115), instrumented to also return the
args dict with which `_execute_adapter` was invoked. The semaphore protocol
around the body is modelled separately (see the Sem section); the transient
RUNNING status and the DB record updates have no bearing on the returned
task. On timeout the task fails with the timeout message; on an adapter
error (after retries) it fails with `str(e)`; on success it completes with
the stringified result. In all three cases `args["dependency_output"]` was
already injected. -/
def runTaskI (env : EngineEnv) (allTasks : List DAGTask) (t : DAGTask) :
    DAGTask × List (String × ArgVal) :=
  let args1 := setArg t.args "dependency_output" (.depMap (depContext allTasks t))
  if env.timedOut t.id then
    ({ t with
        status := .failed
        result := some "Task exceeded 60.0s limit."
        args := args1 }, args1)
  else
    match executeAdapter env t.action args1 with
    | .ok r =>
        ({ t with status := .completed, result := some r, args := args1 }, args1)
    | .error e =>
        ({ t with status := .failed, result := some e, args := args1 }, args1)

def runTask (env : EngineEnv) (allTasks : List DAGTask) (t : DAGTask) : DAGTask :=
  (runTaskI env allTasks t).1

/-- The readiness scan of executor.py 40-55, iterating the task dict in
insertion order: terminal tasks are skipped; a non-terminal task with a
failed dependency is failed in place (fail-fast propagation) and its id
added to the failed set, which later tasks in the same pass observe; a
pending task whose dependencies are all completed is collected as
executable. Returns the updated tasks, the updated failed set, the
executable ids in order, and `pending_count`. -/
def scanTasks (completedIds : List String) (failedIds : List String) :
    List DAGTask → List DAGTask × List String × List String × Nat
  | [] => ([], failedIds, [], 0)
  | t :: rest =>
      if t.status = .completed ∨ t.status = .failed then
        let (rest1, f1, ex1, n1) := scanTasks completedIds failedIds rest
        (t :: rest1, f1, ex1, n1)
      else
        if t.dependencies.any (fun d => failedIds.contains d) then
          let t1 := { t with
            status := TaskStatus.failed
            result := some "Upstream dependency failed." }
          let (rest1, f1, ex1, n1) := scanTasks completedIds (t.id :: failedIds) rest
          (t1 :: rest1, f1, ex1, n1 + 1)
        else if t.dependencies.all (fun d => completedIds.contains d)
                ∧ t.status = .pending then
          let (rest1, f1, ex1, n1) := scanTasks completedIds failedIds rest
          (t :: rest1, f1, t.id :: ex1, n1 + 1)
        else
          let (rest1, f1, ex1, n1) := scanTasks completedIds failedIds rest
          (t :: rest1, f1, ex1, n1 + 1)

/-- One wave (executor.py 64-73): run every executable task, then record the
terminal outcome in the completed/failed id sets. The `asyncio.gather` coroutines
only interact through the semaphore: each mutates its own task only, and
reads other tasks only through already-terminal dependencies, so running
them sequentially yields the same final task states. -/
def runWave (env : EngineEnv) :
    List String → List DAGTask → List String → List String →
    List DAGTask × List String × List String
  | [], tasks, completedIds, failedIds => (tasks, completedIds, failedIds)
  | tid :: rest, tasks, completedIds, failedIds =>
      match findTask tasks tid with
      | none => runWave env rest tasks completedIds failedIds
      | some t =>
          let t1 := runTask env tasks t
          let tasks1 := updateTask tasks t1
          if t1.status = .completed then
            runWave env rest tasks1 (tid :: completedIds) failedIds
          else
            runWave env rest tasks1 completedIds (tid :: failedIds)

/-- The `while True` loop of Executor.execute_dag (executor.py 35-74). Every
iteration that does not break makes at least one pending task terminal, so
`tasks.length + 1` iterations always suffice; the fuel argument makes that
bound explicit and `none` (fuel exhausted) is never returned when the loop
is entered with that budget — the concrete theorems below all return
`some`. The two breaks return the tasks as mutated by the scan. -/
def execDagLoop (env : EngineEnv) :
    Nat → List DAGTask → List String → List String → Option (List DAGTask)
  | 0, _, _, _ => none
  | fuel + 1, tasks, completedIds, failedIds =>
      let s := scanTasks completedIds failedIds tasks
      let tasks1 := s.1
      let failed1 := s.2.1
      let executable := s.2.2.1
      let pendingCount := s.2.2.2
      if executable = [] ∧ 0 < pendingCount then some tasks1
      else if pendingCount = 0 then some tasks1
      else
        let w := runWave env executable tasks1 completedIds failed1
        execDagLoop env fuel w.1 w.2.1 w.2.2

/-- Executor.execute_dag (executor.py 25-75): seed `completed_ids` from
already-completed tasks (`failed_ids` starts empty — the source does not
seed it), then run the wavefront loop. DB record initialisation is a side
channel and not represented. -/
def executeDag (env : EngineEnv) (tasks : List DAGTask) : Option (List DAGTask) :=
  let completed0 := (tasks.filter (fun t => t.status = TaskStatus.completed)).map (·.id)
  execDagLoop env (tasks.length + 1) tasks completed0 []

/-! ### Concrete executor runs (evidence for C1 and C2) -/

/-- An adapter that always succeeds. -/
def adapterOk : List (String × ArgVal) → Nat → Except String String :=
  fun _ _ => .ok "done"

/-- An adapter that raises on every attempt (a permanently failing action). -/
def adapterBoom : List (String × ArgVal) → Nat → Except String String :=
  fun _ _ => .error "boom"

/-- Registry with a working adapter under "noop" and a permanently failing
one under "work"; no wall-clock timeouts fire. -/
def envChain : EngineEnv where
  registry := fun a =>
    if a = "noop" then some adapterOk
    else if a = "work" then some adapterBoom
    else none
  timedOut := fun _ => false

/-- The chain a -> b -> c (a depends on b, b depends on c), listed with the
downstream tasks first — a step order the Builder accepts, since validation
never requires topological listing order. -/
def tasksChainA : List DAGTask :=
  [{ id := "a", action := "noop", args := [], dependencies := ["b"] },
   { id := "b", action := "noop", args := [], dependencies := ["c"] },
   { id := "c", action := "work", args := [], dependencies := [] }]

/-- Same shape with different ids (t1 depends on t2, t2 depends on t3). -/
def tasksChainB : List DAGTask :=
  [{ id := "t1", action := "noop", args := [], dependencies := ["t2"] },
   { id := "t2", action := "noop", args := [], dependencies := ["t3"] },
   { id := "t3", action := "work", args := [], dependencies := [] }]

/-- C1 (code bug evidence). On the acyclic, referentially closed chain
`a depends on b, b depends on c` (listed in that order) with c's adapter
permanently raising, `execute_dag` returns with c Failed (its adapter
raised), b Failed with result "Upstream dependency failed." (fail-fast
propagation), but a still Pending: after the scan pass fails b, the
executable set is empty while `pending_count > 0`, and the loop takes the
deadlock break before a's failed dependency is ever observed. a's action
handler is indeed never invoked, but a does not end Failed, contradicting
the claimed invariant (spec section 8) and the source's own reading that
the deadlock break "can only happen from a malformed graph". -/
theorem c1_fail_fast_propagation_violated :
    (executeDag envChain tasksChainA).map
      (fun f => (statusOf f "a", statusOf f "b", resultOf f "b", statusOf f "c")) =
    some (some .pending, some .failed, some (some "Upstream dependency failed."),
      some .failed) := by decide

/-- C2 (code bug evidence). On the acyclic, referentially closed chain
`t1 depends on t2, t2 depends on t3` with t3's adapter permanently raising,
`execute_dag` terminates (the embedding returns `some`, i.e. the explicit
iteration budget was not even consumed) but task t1 is still Pending on
return — not every task ends Completed or Failed, contradicting the claim's
second conjunct. -/
theorem c2_task_left_pending_on_return :
    (executeDag envChain tasksChainB).map
      (fun f => (statusOf f "t1", statusOf f "t2", statusOf f "t3")) =
    some (some .pending, some .failed, some .failed) := by decide

/-! ### Dependency-output injection (C9) and the mock fallback (C10) -/

theorem lookupArg_setArg (args : List (String × ArgVal)) (k : String) (v : ArgVal) :
    lookupArg (setArg args k v) k = some v := by
  induction args with
  | nil => simp [setArg, lookupArg]
  | cons p rest ih =>
      by_cases h : p.1 = k
      · simp [setArg, h, lookupArg]
      · simpa [setArg, h, lookupArg] using ih

theorem depContext_mem (allTasks : List DAGTask) (t : DAGTask)
    (d : String) (r : Option String) :
    (d, r) ∈ depContext allTasks t ↔
      d ∈ t.dependencies ∧
        ∃ dt, findTask allTasks d = some dt ∧ dt.status = .completed ∧
          dt.result = r := by
  constructor
  · intro hmem
    rcases List.mem_filterMap.1 hmem with ⟨a, ha, hfa⟩
    rcases hdt : findTask allTasks a with _ | dt <;> rw [hdt] at hfa
    · exact absurd hfa (by simp)
    · by_cases hs : dt.status = TaskStatus.completed
      · simp only [hs, if_true] at hfa
        rcases hfa with ⟨rfl, rfl⟩
        exact ⟨ha, dt, hdt, hs, rfl⟩
      · simp [hs] at hfa
  · rintro ⟨hd, dt, hdt, hs, rfl⟩
    exact List.mem_filterMap.2 ⟨d, hd, by simp [hdt, hs]⟩

/-- C9: in `_run_task`, immediately before the action is invoked, the args
dict passed to `_execute_adapter` is the task's args with
`args["dependency_output"]` set to the mapping of each completed
dependency's id to that dependency's result; the same dict is stored back
on the task. `(runTaskI …).2` is, by construction of the embedding, exactly
the dict `_execute_adapter` receives. -/
theorem c9_dependency_output_injected (env : EngineEnv)
    (allTasks : List DAGTask) (t : DAGTask) :
    (runTaskI env allTasks t).2 =
      setArg t.args "dependency_output" (.depMap (depContext allTasks t)) ∧
    lookupArg (runTaskI env allTasks t).2 "dependency_output" =
      some (.depMap (depContext allTasks t)) ∧
    (runTaskI env allTasks t).1.args = (runTaskI env allTasks t).2 ∧
    (∀ d r, (d, r) ∈ depContext allTasks t ↔
      d ∈ t.dependencies ∧
        ∃ dt, findTask allTasks d = some dt ∧ dt.status = .completed ∧
          dt.result = r) := by
  have hsnd : (runTaskI env allTasks t).2 =
      setArg t.args "dependency_output" (.depMap (depContext allTasks t)) := by
    simp only [runTaskI]
    split
    · rfl
    · split <;> rfl
  refine ⟨hsnd, ?_, ?_, fun d r => depContext_mem allTasks t d r⟩
  · rw [hsnd]; exact lookupArg_setArg _ _ _
  · simp only [runTaskI]
    split
    · rfl
    · split <;> rfl

/-- C9 witness: a concrete instantiation, with b a completed dependency of
a carrying result "out". -/
theorem c9_witness :
    lookupArg
      (runTaskI envChain
        [{ id := "b", action := "noop", args := [], dependencies := [],
           status := .completed, result := some "out" }]
        { id := "a", action := "noop", args := [], dependencies := ["b"] }).2
      "dependency_output" = some (.depMap [("b", some "out")]) := by
  have h := (c9_dependency_output_injected envChain
    [{ id := "b", action := "noop", args := [], dependencies := [],
       status := .completed, result := some "out" }]
    { id := "a", action := "noop", args := [], dependencies := ["b"] }).2.1
  simpa using h

/-- An environment with an empty adapter registry and no timeouts. -/
def envEmpty : EngineEnv where
  registry := fun _ => none
  timedOut := fun _ => false

def tMock : DAGTask :=
  { id := "m", action := "summarize", args := [], dependencies := [] }

/-- C10: for every args mapping, if a task's action is one of "summarize",
"analyze_data" or "web_search" and no adapter is registered under that name,
`_execute_adapter` does not raise: it returns the fabricated string
"[MOCK] Result for <action>" on its very first attempt, and `_run_task`
therefore ends the task Completed with that mock result rather than Failed
with a not-found error. -/
theorem c10_unregistered_mock_action_completes (env : EngineEnv)
    (allTasks : List DAGTask) (t : DAGTask) (args : List (String × ArgVal))
    (hreg : env.registry t.action = none)
    (hmock : t.action = "summarize" ∨ t.action = "analyze_data"
              ∨ t.action = "web_search")
    (htime : env.timedOut t.id = false) :
    executeAdapterCounted env t.action args =
      (.ok ("[MOCK] Result for " ++ t.action), 1) ∧
    (runTask env allTasks t).status = .completed ∧
    (runTask env allTasks t).result = some ("[MOCK] Result for " ++ t.action) := by
  have hbody : ∀ (a : List (String × ArgVal)) (i : Nat),
      executeAdapterBody env t.action a i =
        .ok ("[MOCK] Result for " ++ t.action) := by
    intro a i
    simp only [executeAdapterBody, hreg]
    rw [if_pos hmock]
  have hcnt : ∀ a : List (String × ArgVal),
      executeAdapterCounted env t.action a =
        (.ok ("[MOCK] Result for " ++ t.action), 1) := by
    intro a
    simp only [executeAdapterCounted]
    rw [show (2 : Nat) = 1 + 1 from rfl, tenacityGo, hbody]
  refine ⟨hcnt args, ?_, ?_⟩ <;>
    simp [runTask, runTaskI, htime, executeAdapter, hcnt]

/-- C10 witness at a concrete input. -/
theorem c10_witness :
    executeAdapterCounted envEmpty "summarize" [] =
      (.ok ("[MOCK] Result for " ++ "summarize"), 1) ∧
    (runTask envEmpty [] tMock).status = .completed ∧
    (runTask envEmpty [] tMock).result =
      some ("[MOCK] Result for " ++ "summarize") :=
  c10_unregistered_mock_action_completes envEmpty [] tMock [] rfl (Or.inl rfl) rfl

/-- C6: Critic.evaluate is a total function of the scoring-call outcome —
it never propagates an exception. If the external scoring call raises, or
the returned score does not parse as a float, it degrades to
`(False, 0.0, "Critic system error.")`; otherwise it returns
`passed = (score >= threshold)` with the score and the (defaulted)
feedback, and the constructor default threshold is 0.75. -/
theorem c6_critic_fail_safe (threshold : ℚ)
    (call : Except Unit CriticEvalDict) :
    (∀ u : Unit, call = .error u →
        criticEvaluate threshold call = (false, 0, "Critic system error.")) ∧
    (∀ d : CriticEvalDict, call = .ok d → d.score = some .unparseable →
        criticEvaluate threshold call = (false, 0, "Critic system error.")) ∧
    (∀ (d : CriticEvalDict) (q : ℚ), call = .ok d → d.score = some (.num q) →
        criticEvaluate threshold call =
          (decide (threshold ≤ q), q, d.feedback.getD "No feedback provided.")) ∧
    (∀ d : CriticEvalDict, call = .ok d → d.score = none →
        criticEvaluate threshold call =
          (decide (threshold ≤ 0), 0, d.feedback.getD "No feedback provided.")) ∧
    criticDefaultThreshold = 3/4 := by
  refine ⟨?_, ?_, ?_, ?_, by norm_num [criticDefaultThreshold, Rat.mkRat_eq_div]⟩
  · rintro u rfl; rfl
  · rintro d rfl hs; simp [criticEvaluate, hs]
  · rintro d q rfl hs; simp [criticEvaluate, hs]
  · rintro d rfl hs; simp [criticEvaluate, hs, Option.getD]

/-- C6 witness: a raising scoring call degrades fail-safe at the default
threshold. -/
theorem c6_witness :
    criticEvaluate criticDefaultThreshold (.error ()) =
      (false, 0, "Critic system error.") :=
  (c6_critic_fail_safe criticDefaultThreshold (.error ())).1 () rfl

/-! ## Concurrency limiter (C7): the semaphore protocol of _run_task -/

namespace Sem

/-- The phases a task coroutine passes through in _run_task (executor.py
77-115) with respect to the concurrency limiter: `idle` before it enters
`async with self.semaphore`; `acquired` holding a permit but not yet marked
Running (between lines 78 and 79); `running` holding a permit with status
Running (line 79 until a terminal status is assigned); `finished` holding a
permit with a terminal status set (every exit path of the try block assigns
Completed or Failed before the block is left); `released` after the
async-with block exits and its permit is returned. -/
inductive Phase where
  | idle
  | acquired
  | running
  | finished
  | released
deriving DecidableEq

def holdsPermit : Phase → Bool
  | .acquired => true
  | .running => true
  | .finished => true
  | _ => false

def isRunning : Phase → Bool
  | .running => true
  | _ => false

/-- Number of semaphore permits currently held. -/
def held (s : List Phase) : Nat := s.countP holdsPermit

/-- Number of tasks currently holding Running status. -/
def runningCount (s : List Phase) : Nat := s.countP isRunning

/-- Interleaving semantics of one Executor invocation under a limiter of
capacity `maxC` (`asyncio.Semaphore(max_concurrent)`, executor.py 22): a
step advances one task coroutine across its next phase boundary. `acquire`
is enabled only while a permit is free — the semaphore suspends the
coroutine otherwise; a task is marked Running only after acquiring, and it
carries a terminal status before its permit is released. -/
inductive Step (maxC : Nat) : List Phase → List Phase → Prop
  | acquire (s : List Phase) (i : Nat) (h : s.get? i = some .idle)
      (hc : held s < maxC) : Step maxC s (s.set i .acquired)
  | markRunning (s : List Phase) (i : Nat) (h : s.get? i = some .acquired) :
      Step maxC s (s.set i .running)
  | finish (s : List Phase) (i : Nat) (h : s.get? i = some .running) :
      Step maxC s (s.set i .finished)
  | release (s : List Phase) (i : Nat) (h : s.get? i = some .finished) :
      Step maxC s (s.set i .released)

/-- States reachable from `n` not-yet-started task coroutines. -/
inductive Reach (maxC n : Nat) : List Phase → Prop
  | init : Reach maxC n (List.replicate n .idle)
  | step {s s1 : List Phase} : Reach maxC n s → Step maxC s s1 → Reach maxC n s1

theorem countP_set (p : Phase → Bool) :
    ∀ (l : List Phase) (i : Nat) (a b : Phase), l.get? i = some a →
      (l.set i b).countP p + (if p a then 1 else 0) =
        l.countP p + (if p b then 1 else 0) := by
  intro l
  induction l with
  | nil => intro i a b h; simp at h
  | cons x rest ih =>
      intro i a b h
      cases i with
      | zero =>
          simp only [List.get?] at h
          injection h with h; subst h
          simp [List.countP_cons]
          omega
      | succ j =>
          simp only [List.get?] at h
          have := ih j a b h
          simp [List.countP_cons]
          omega

theorem held_invariant {maxC n : Nat} {s : List Phase}
    (h : Reach maxC n s) : held s ≤ maxC := by
  induction h with
  | init =>
      have h0 : held (List.replicate n Phase.idle) = 0 :=
        List.countP_eq_zero.2 (fun a ha => by
          rw [List.eq_of_mem_replicate ha]; simp [holdsPermit])
      omega
  | step _ hstep ih =>
      cases hstep with
      | acquire i hi hc =>
          have hcs := countP_set holdsPermit _ i .idle .acquired hi
          simp [holdsPermit] at hcs
          unfold held at *
          omega
      | markRunning i hi =>
          have hcs := countP_set holdsPermit _ i .acquired .running hi
          simp [holdsPermit] at hcs
          unfold held at *
          omega
      | finish i hi =>
          have hcs := countP_set holdsPermit _ i .running .finished hi
          simp [holdsPermit] at hcs
          unfold held at *
          omega
      | release i hi =>
          have hcs := countP_set holdsPermit _ i .finished .released hi
          simp [holdsPermit] at hcs
          unfold held at *
          omega

theorem runningCount_le_held (s : List Phase) : runningCount s ≤ held s := by
  unfold runningCount held
  refine List.countP_mono_left ?_
  intro a _ ha
  cases a <;> simp_all [isRunning, holdsPermit]

end Sem

/-- C7: in every state reachable during one Executor invocation, the number
of tasks holding Running status never exceeds the limiter capacity
`maxC` (`max_concurrent`, default `Settings.MAX_CONCURRENT_TASKS = 5`): a
task is marked Running only between acquiring a semaphore permit and
releasing it with a terminal status already set, and at most `maxC` permits
are ever held. -/
theorem c7_running_bounded_by_limiter (maxC n : Nat) (s : List Sem.Phase)
    (h : Sem.Reach maxC n s) : Sem.runningCount s ≤ maxC :=
  le_trans (Sem.runningCount_le_held s) (Sem.held_invariant h)

/-- C7 witness: with the default capacity 5 and one task, the state in
which that task has acquired a permit and been marked Running is reachable,
and the bound holds there. -/
theorem c7_witness :
    Sem.runningCount [Sem.Phase.running] ≤ defaultSettings.maxConcurrent :=
  c7_running_bounded_by_limiter 5 1 [Sem.Phase.running]
    (Sem.Reach.step
      (Sem.Reach.step Sem.Reach.init (Sem.Step.acquire _ 0 rfl (by decide)))
      (Sem.Step.markRunning _ 0 rfl))

/-! ## DAG Builder/Validator (orchestrator.py 178-249, engine/planner.py
54-110) -/

/-- A raw step descriptor from the planner JSON; each field is read with
`step.get(...)` (absent key gives none). -/
structure RawStep where
  id : Option String := none
  description : Option String := none
  tool : Option String := none
  dependencies : Option (List String) := none
deriving DecidableEq, Repr

/-- Python falsiness `not t_id`: the id is missing or the empty string. -/
def badId : Option String → Bool
  | none => true
  | some s => s == ""

/-- DAGTask construction from a step (orchestrator.py 193-198 and
planner.py 65-74 construct identically): tool defaults to "unknown", args
carry the description (default "") and the objective as context,
dependencies default to []. -/
def mkStepTask (objective : String) (step : RawStep) (tid : String) : DAGTask :=
  { id := tid
    action := step.tool.getD "unknown"
    args := [("description", .s (step.description.getD "")),
             ("context", .s objective)]
    dependencies := step.dependencies.getD [] }

/-- Pass 1 of orchestrator._validate_and_build_dag (186-198): build the
task dict in step order; a missing/empty id or a duplicate id raises
ValueError. (The source's missing-id message interpolates the repr of the
offending step; the repr is omitted and no claim depends on that text.) -/
def orchPass1 (objective : String) (acc : List DAGTask) :
    List RawStep → Except String (List DAGTask)
  | [] => .ok acc
  | step :: rest =>
      match step.id with
      | none => .error "Plan step missing id field"
      | some tid =>
          if tid = "" then .error "Plan step missing id field"
          else if (findTask acc tid).isSome then
            .error ("Duplicate Task ID detected: " ++ squote tid)
          else orchPass1 objective (acc ++ [mkStepTask objective step tid]) rest

/-- Python dict insert used by planner.py 65: overwrite in place, else
append. -/
def upsertTask (tasks : List DAGTask) (t : DAGTask) : List DAGTask :=
  if (findTask tasks t.id).isSome then updateTask tasks t else tasks ++ [t]

/-- Pass 1 of Planner._build_and_validate_dag (60-74): a step with a
missing or empty id is silently skipped (`if not t_id: continue`); a
duplicate id silently overwrites the earlier entry. -/
def plannerPass1 (objective : String) (acc : List DAGTask) :
    List RawStep → List DAGTask
  | [] => acc
  | step :: rest =>
      match step.id with
      | none => plannerPass1 objective acc rest
      | some tid =>
          if tid = "" then plannerPass1 objective acc rest
          else
            plannerPass1 objective
              (upsertTask acc (mkStepTask objective step tid)) rest

/-- Dependency validation shared by orchestrator.py 200-206 and planner.py
76-83 (their not-found messages differ by one word, so the message is a
parameter): a self-dependency or a dependency id absent from the graph
raises ValueError. -/
def checkDepList (tasks : List DAGTask) (tid : String)
    (notFound : String → String) : List String → Except String Unit
  | [] => .ok ()
  | d :: rest =>
      if d = tid then
        .error ("Self-dependency detected in task " ++ squote tid)
      else if (findTask tasks d).isNone then .error (notFound d)
      else checkDepList tasks tid notFound rest

def checkDeps (tasks : List DAGTask) (notFound : String → String → String) :
    List DAGTask → Except String Unit
  | [] => .ok ()
  | t :: rest =>
      match checkDepList tasks t.id (notFound t.id) t.dependencies with
      | .error e => .error e
      | .ok _ => checkDeps tasks notFound rest

def orchNotFound (tid d : String) : String :=
  "Task " ++ squote tid ++ " depends on non-existent task " ++ squote d

def plannerNotFound (tid d : String) : String :=
  "Task " ++ squote tid ++ " depends on non-existent " ++ squote d

/-- `tasks[v].dependencies`, with [] for an id outside the graph (the
source would raise KeyError there; cycle detection runs only after pass 2,
which guarantees every id reachable from the graph is present). -/
def taskDeps (tasks : List DAGTask) (v : String) : List String :=
  ((findTask tasks v).map (·.dependencies)).getD []

def taskIds (tasks : List DAGTask) : List String := tasks.map (·.id)

def cycleMsgOf (path : List String) : String :=
  "Cycle detected in execution plan: " ++ String.intercalate " -> " path

/-- The neighbor loop of the orchestrator dfs (orchestrator.py 227-242),
parameterized by `next`, the recursive dfs visit at the remaining recursion
depth: an already-visited neighbor on the stack (path_set) reconstructs the
cycle path from the first occurrence of the neighbor in path_stack and
raises it; an already-visited neighbor off the stack is skipped; an
unvisited neighbor is visited recursively, growing the visited set. -/
def odfsFold
    (next : List String → List String → String →
      Option (Except String (List String))) :
    List String → List String → List String →
    Option (Except String (List String))
  | visited, _, [] => some (.ok visited)
  | visited, stack, n :: rest =>
      if n ∈ visited then
        if n ∈ stack then
          some (.error (cycleMsgOf (stack.drop (stack.indexOf n) ++ [n])))
        else odfsFold next visited stack rest
      else
        match next visited stack n with
        | none => none
        | some (.error e) => some (.error e)
        | some (.ok visited1) => odfsFold next visited1 stack rest

/-- orchestrator._detect_cycles dfs (222-249), with an explicit recursion
depth: `none` is depth exhaustion, ruled out by `ids.length + 1` fuel
(odfs_isSome below — the dfs never recurses into a visited node, so its
depth is bounded by the number of ids). On a False return, the balanced
push/pop restores the caller's path_stack, so only the grown visited set
is returned. The `v ∈ visited` guard is dead code (every call site tests
it); the `v ∉ ids` branch models the empty dependency list of an unknown
id (unreachable after pass 2). The source's inner try/except around
path_stack.index collapses: the index call cannot fail (the neighbor is in
path_set, i.e. on the stack) and the cycle ValueError is re-raised
unchanged. -/
def odfs (ids : List String) (deps : String → List String) :
    Nat → List String → List String → String →
    Option (Except String (List String))
  | 0, _, _, _ => none
  | fuel + 1, visited, stack, v =>
      if v ∈ visited then some (.ok visited)
      else if v ∈ ids then
        odfsFold (odfs ids deps fuel) (v :: visited) (stack ++ [v]) (deps v)
      else some (.ok (v :: visited))

/-- The top-level loop of _detect_cycles (247-249): dfs from every not-yet
visited id in insertion order, threading the visited set. -/
def odetectLoop (ids : List String) (deps : String → List String) :
    List String → List String → Option (Except String Unit)
  | _, [] => some (.ok ())
  | visited, tid :: rest =>
      if tid ∈ visited then odetectLoop ids deps visited rest
      else
        match odfs ids deps (ids.length + 1) visited [] tid with
        | none => none
        | some (.error e) => some (.error e)
        | some (.ok visited1) => odetectLoop ids deps visited1 rest

/-- orchestrator._detect_cycles. The getD default is unreachable: the fuel
bound always suffices (odetect_isSome below). -/
def orchDetect (tasks : List DAGTask) : Except String Unit :=
  (odetectLoop (taskIds tasks) (taskDeps tasks) [] (taskIds tasks)).getD
    (.error "fuel exhausted")

/-- orchestrator._validate_and_build_dag (178-211): parse with uniqueness,
verify dependency references, detect cycles; any ValueError aborts the
build with no graph. -/
def orchBuild (steps : List RawStep) (objective : String) :
    Except String (List DAGTask) :=
  match orchPass1 objective [] steps with
  | .error e => .error e
  | .ok tasks =>
      match checkDeps tasks orchNotFound tasks with
      | .error e => .error e
      | .ok _ =>
          match orchDetect tasks with
          | .error e => .error e
          | .ok _ => .ok tasks

/-- The neighbor loop of the engine Planner dfs (planner.py 98-102),
parameterized like odfsFold; finding a cycle returns True (`.error ()`)
with no path information. -/
def pdfsFold
    (next : List String → List String → String →
      Option (Except Unit (List String))) :
    List String → List String → List String →
    Option (Except Unit (List String))
  | visited, _, [] => some (.ok visited)
  | visited, stack, n :: rest =>
      if n ∈ visited then
        if n ∈ stack then some (.error ())
        else pdfsFold next visited stack rest
      else
        match next visited stack n with
        | none => none
        | some (.error e) => some (.error e)
        | some (.ok visited1) => pdfsFold next visited1 stack rest

/-- Planner._detect_cycles dfs (planner.py 94-105), fueled like odfs; the
stack is kept as the same list (the source keeps a set; only membership is
ever used, and on a False return the node is removed again). -/
def pdfs (ids : List String) (deps : String → List String) :
    Nat → List String → List String → String →
    Option (Except Unit (List String))
  | 0, _, _, _ => none
  | fuel + 1, visited, stack, v =>
      if v ∈ visited then some (.ok visited)
      else if v ∈ ids then
        pdfsFold (pdfs ids deps fuel) (v :: visited) (stack ++ [v]) (deps v)
      else some (.ok (v :: visited))

def pdetectLoop (ids : List String) (deps : String → List String) :
    List String → List String → Option (Except Unit Unit)
  | _, [] => some (.ok ())
  | visited, tid :: rest =>
      if tid ∈ visited then pdetectLoop ids deps visited rest
      else
        match pdfs ids deps (ids.length + 1) visited [] tid with
        | none => none
        | some (.error e) => some (.error e)
        | some (.ok visited1) => pdetectLoop ids deps visited1 rest

/-- Planner._detect_cycles with its caller (planner.py 107-110): a detected
cycle raises ValueError with the generic message and no path. (The fuel
default cannot fire, by the same bound as for orchDetect.) -/
def plannerDetect (tasks : List DAGTask) : Except String Unit :=
  match pdetectLoop (taskIds tasks) (taskDeps tasks) [] (taskIds tasks) with
  | some (.ok _) => .ok ()
  | _ => .error "Cycle detected in Execution Plan."

/-- Planner._build_and_validate_dag (planner.py 54-88). -/
def plannerBuild (steps : List RawStep) (objective : String) :
    Except String (List DAGTask) :=
  let tasks := plannerPass1 objective [] steps
  match checkDeps tasks plannerNotFound tasks with
  | .error e => .error e
  | .ok _ =>
      match plannerDetect tasks with
      | .error e => .error e
      | .ok _ => .ok tasks

/-! ### C4: missing/empty step ids -/

def stepA : RawStep :=
  { id := some "a", description := some "first", tool := some "x",
    dependencies := some [] }

def stepNoId : RawStep :=
  { id := some "", description := some "orphan", tool := some "y",
    dependencies := some [] }

theorem orchPass1_error_of_badId (objective : String) :
    ∀ (steps : List RawStep) (acc : List DAGTask),
      (∃ s ∈ steps, badId s.id = true) →
      ∃ e, orchPass1 objective acc steps = .error e := by
  intro steps
  induction steps with
  | nil =>
      rintro acc ⟨s, hs, _⟩
      exact absurd hs (by simp)
  | cons s rest ih =>
      rintro acc ⟨t, ht, hbad⟩
      rcases hid : s.id with _ | tid
      · exact ⟨"Plan step missing id field", by simp [orchPass1, hid]⟩
      · by_cases he : tid = ""
        · exact ⟨"Plan step missing id field", by simp [orchPass1, hid, he]⟩
        · have htrest : t ∈ rest := by
            rcases List.mem_cons.1 ht with rfl | h
            · rw [hid] at hbad; simp [badId, he] at hbad
            · exact h
          by_cases hdup : (findTask acc tid).isSome
          · exact ⟨"Duplicate Task ID detected: " ++ squote tid,
              by simp [orchPass1, hid, he, hdup]⟩
          · rcases ih (acc ++ [mkStepTask objective s tid]) ⟨t, htrest, hbad⟩
              with ⟨e, he2⟩
            exact ⟨e, by simp [orchPass1, hid, he, hdup, he2]⟩

theorem plannerPass1_filter (objective : String) :
    ∀ (steps : List RawStep) (acc : List DAGTask),
      plannerPass1 objective acc steps =
        plannerPass1 objective acc (steps.filter (fun s => !(badId s.id))) := by
  intro steps
  induction steps with
  | nil => intro acc; rfl
  | cons s rest ih =>
      intro acc
      rcases hid : s.id with _ | tid
      · simpa [plannerPass1, hid, List.filter_cons, badId] using ih acc
      · by_cases he : tid = ""
        · simpa [plannerPass1, hid, he, List.filter_cons, badId] using ih acc
        · simpa [plannerPass1, hid, he, List.filter_cons, badId] using
            ih (upsertTask acc (mkStepTask objective s tid))

/-- C4 counterexample. The claim says every step list containing a step
with a missing or empty id makes the Builder raise and never yields a
partial graph; but the engine Planner Builder, given a list whose second
step has an empty id, raises nothing and returns a partial graph holding
only the first step - the offending step is silently dropped
(planner.py 63: `if not t_id: continue`). -/
theorem c4_counterexample :
    plannerBuild [stepA, stepNoId] "obj" =
      .ok [mkStepTask "obj" stepA "a"] := rfl

/-- C4 amended: the orchestrator Builder raises a PlanValidationError-style
ValueError on any step list containing a step with a missing or empty id
and returns no graph at all; the engine Planner Builder instead behaves on
such a list exactly as on the list with those steps removed — it silently
drops them and can return a partial graph. -/
theorem c4_missing_id_amended (steps : List RawStep) (objective : String)
    (hbad : ∃ s ∈ steps, badId s.id = true) :
    (∃ e, orchBuild steps objective = .error e) ∧
    plannerBuild steps objective =
      plannerBuild (steps.filter (fun s => !(badId s.id))) objective := by
  constructor
  · rcases orchPass1_error_of_badId objective steps [] hbad with ⟨e, he⟩
    exact ⟨e, by simp [orchBuild, he]⟩
  · simp only [plannerBuild]
    rw [← plannerPass1_filter objective steps []]

/-- C4 witness at the concrete counterexample input. -/
theorem c4_witness :
    (∃ e, orchBuild [stepA, stepNoId] "obj" = .error e) ∧
    plannerBuild [stepA, stepNoId] "obj" =
      plannerBuild ([stepA, stepNoId].filter (fun s => !(badId s.id))) "obj" :=
  c4_missing_id_amended [stepA, stepNoId] "obj" ⟨stepNoId, by simp, rfl⟩

/-! ## Orchestrator execution (orchestrator.py 251-356) -/

/-- The orchestrator's external effects inside one DAG execution:
`getResponse p` models `router.get_response(p)` (used by _tool_summarize),
`systemQuery` models _tool_system_query's vault read; either may raise. -/
structure OrchEnv where
  getResponse : String → Except String String
  systemQuery : Except String String

/-- A loose rendering of `json.dumps` on the dependency-result dict; no
claim depends on its format, only that the summarize prompt embeds it. -/
def dumpDepMap (m : List (String × Option String)) : String :=
  String.intercalate ", " (m.map fun p => p.1 ++ ": " ++ p.2.getD "null")

/-- `args.get('description', 'query')` — by construction of the builders
the description arg is always a string, so the depMap branch is dead. -/
def descOrQuery (args : List (String × ArgVal)) : String :=
  match lookupArg args "description" with
  | some (.s d) => d
  | some (.depMap _) => ""
  | none => "query"

/-- `args.get('description')` interpolated into an f-string (None prints
as "None"). -/
def descOrNone (args : List (String × ArgVal)) : String :=
  match lookupArg args "description" with
  | some (.s d) => d
  | some (.depMap _) => ""
  | none => "None"

/-- _tool_web_search (orchestrator.py 339-341). -/
def toolWebSearch (args : List (String × ArgVal)) : String :=
  "[ SEARCH_RESULT ]: Found high-relevance data for " ++
    squote (descOrQuery args) ++ "..."

/-- The prompt _tool_summarize (343-346) sends to the router. -/
def summarizePrompt (args : List (String × ArgVal)) : String :=
  "Summarize this data relative to the objective: " ++
    (match lookupArg args "dependency_data" with
     | some (.depMap m) => dumpDepMap m
     | _ => dumpDepMap [])

/-- _tool_analyze (348-349). -/
def toolAnalyze (args : List (String × ArgVal)) : String :=
  "[ ANALYTICS ]: Data variance within nominal limits. " ++
    descOrNone args ++ " verified."

/-- The handler dispatch of _execute_dag (orchestrator.py 296-299) over the
tool registry (23-28) with _tool_fallback (354-355) as the default: an
action not in the registry runs the no-op fallback, which returns
successfully. -/
def orchDispatch (env : OrchEnv) (action : String)
    (args : List (String × ArgVal)) : Except String String :=
  if action = "web_search" then .ok (toolWebSearch args)
  else if action = "summarize" then env.getResponse (summarizePrompt args)
  else if action = "analyze_data" then .ok (toolAnalyze args)
  else if action = "system_query" then env.systemQuery
  else .ok "[ NO_OP ]: Tool not found in registry."

/-- One executable batch of orchestrator._execute_dag (275-330), run
sequentially as the source does: inject `args["dependency_data"]` =
mapping of every dependency id to its result, dispatch the handler; on
success complete the task, add its id to completed, drop it from pending
and set progress_made; on an exception fail it with
"Execution Error: <e>" and drop it from pending without setting
progress_made. The transient Running status and log lines are not
represented. -/
def orchRunBatch (env : OrchEnv) :
    List String → List DAGTask → List String → List String → Bool →
    List DAGTask × List String × List String × Bool
  | [], tasks, pending, completed, progress =>
      (tasks, pending, completed, progress)
  | tid :: rest, tasks, pending, completed, progress =>
      match findTask tasks tid with
      | none => orchRunBatch env rest tasks pending completed progress
      | some t =>
          let depResults := t.dependencies.map fun d =>
            (d, ((findTask tasks d).map (·.result)).getD none)
          let args1 := setArg t.args "dependency_data" (.depMap depResults)
          match orchDispatch env t.action args1 with
          | .ok r =>
              let t1 := { t with
                status := TaskStatus.completed
                result := some r
                args := args1 }
              orchRunBatch env rest (updateTask tasks t1) (pending.erase tid)
                (completed ++ [tid]) true
          | .error e =>
              let t1 := { t with
                status := TaskStatus.failed
                result := some ("Execution Error: " ++ e)
                args := args1 }
              orchRunBatch env rest (updateTask tasks t1) (pending.erase tid)
                completed progress

/-- The scheduling loop of orchestrator._execute_dag (255-335): recursion
on the remaining iteration budget, which the source makes explicit
(`max_iterations = len(tasks) * 2`); the loop also exits when pending is
empty, when the executable set is empty (deadlock break), or when a batch
made no progress with tasks still pending. Python iterates the pending-id
set in unspecified order; the embedding keeps insertion order (final task
statuses do not depend on intra-batch order: batch members never depend on
each other and each batch entry touches only its own task). -/
def orchDagLoop (env : OrchEnv) :
    Nat → List DAGTask → List String → List String → List DAGTask
  | 0, tasks, _, _ => tasks
  | budget + 1, tasks, pending, completed =>
      if pending = [] then tasks
      else
        let executable := pending.filter fun tid =>
          match findTask tasks tid with
          | some t => t.dependencies.all fun d => completed.contains d
          | none => false
        if executable = [] then tasks
        else
          let b := orchRunBatch env executable tasks pending completed false
          if b.2.2.2 = false ∧ b.2.1 ≠ [] then b.1
          else orchDagLoop env budget b.1 b.2.1 b.2.2.1

/-- orchestrator._execute_dag (251-335). -/
def orchExecuteDag (env : OrchEnv) (tasks : List DAGTask) : List DAGTask :=
  orchDagLoop env (tasks.length * 2) tasks (tasks.map (·.id)) []

/-! ### C5: unknown actions -/

/-- An OrchEnv whose oracles never raise. -/
def envNoTools : OrchEnv where
  getResponse := fun _ => .ok ""
  systemQuery := .ok ""

def taskCoffee : DAGTask :=
  { id := "t1", action := "make_coffee", args := [], dependencies := [] }

/-- C5 counterexample. The claim says a task whose action is not resolvable
in the Action Registry ends immediately in Failed status and never
completes successfully; but the orchestrator's _execute_dag dispatches the
unknown action "make_coffee" to _tool_fallback, and the task ends Completed
with the no-op string. -/
theorem c5_counterexample :
    (statusOf (orchExecuteDag envNoTools [taskCoffee]) "t1",
     resultOf (orchExecuteDag envNoTools [taskCoffee]) "t1") =
    (some .completed, some (some "[ NO_OP ]: Tool not found in registry.")) := rfl

/-- C5 amended: in the engine Executor, a task whose action has no
registered adapter and is not one of the three mock names does end Failed
with the AdapterNotFoundError message and never completes — but the lookup
failure is retried like any other exception (the tenacity decorator does
not discriminate): exactly 3 resolution attempts are made, not one. In the
orchestrator, an action outside the tool registry is dispatched to the
no-op fallback, which succeeds, so the task ends Completed (see the
counterexample). -/
theorem c5_unknown_action_amended (env : EngineEnv)
    (allTasks : List DAGTask) (t : DAGTask) (oenv : OrchEnv)
    (args0 : List (String × ArgVal))
    (hreg : env.registry t.action = none)
    (hnm : ¬(t.action = "summarize" ∨ t.action = "analyze_data"
              ∨ t.action = "web_search"))
    (htime : env.timedOut t.id = false)
    (horch : ¬(t.action = "web_search" ∨ t.action = "summarize"
              ∨ t.action = "analyze_data" ∨ t.action = "system_query")) :
    executeAdapterCounted env t.action args0 =
      (.error ("No adapter found for action " ++ squote t.action), 3) ∧
    (runTask env allTasks t).status = .failed ∧
    (runTask env allTasks t).result =
      some ("No adapter found for action " ++ squote t.action) ∧
    orchDispatch oenv t.action args0 =
      .ok "[ NO_OP ]: Tool not found in registry." := by
  have hbody : ∀ (a : List (String × ArgVal)) (i : Nat),
      executeAdapterBody env t.action a i =
        .error ("No adapter found for action " ++ squote t.action) := by
    intro a i
    simp only [executeAdapterBody, hreg]
    rw [if_neg hnm]
  have hgo : ∀ (msg : String) (f : Nat → Except String String),
      (∀ i, f i = .error msg) →
      ∀ (extra i : Nat), tenacityGo f i extra = (.error msg, i + extra) := by
    intro msg f hf extra
    induction extra with
    | zero => intro i; simp [tenacityGo, hf i]
    | succ k ih =>
        intro i
        rw [tenacityGo, hf i]
        rw [ih (i + 1)]
        ring_nf
  have hcnt : ∀ a : List (String × ArgVal),
      executeAdapterCounted env t.action a =
        (.error ("No adapter found for action " ++ squote t.action), 3) := by
    intro a
    simp only [executeAdapterCounted]
    exact hgo _ _ (hbody a) 2 1
  push_neg at horch
  refine ⟨hcnt args0, ?_, ?_, ?_⟩
  · simp [runTask, runTaskI, htime, executeAdapter, hcnt]
  · simp [runTask, runTaskI, htime, executeAdapter, hcnt]
  · simp [orchDispatch, horch.1, horch.2.1, horch.2.2.1, horch.2.2.2]

/-- C5 witness at the concrete action "make_coffee". -/
theorem c5_witness :
    executeAdapterCounted envEmpty "make_coffee" [] =
      (.error ("No adapter found for action " ++ squote "make_coffee"), 3) ∧
    (runTask envEmpty [] taskCoffee).status = .failed ∧
    (runTask envEmpty [] taskCoffee).result =
      some ("No adapter found for action " ++ squote "make_coffee") ∧
    orchDispatch envNoTools "make_coffee" [] =
      .ok "[ NO_OP ]: Tool not found in registry." :=
  c5_unknown_action_amended envEmpty [] taskCoffee envNoTools [] rfl
    (by decide) rfl (by decide)

/-! ## Control loop (orchestrator.execute_objective, orchestrator.py
81-176) -/

/-- The dicts execute_objective returns, as constructors: `halted` the
affective-gate veto (86); `planningError` get_structured_plan raised
(101-103); `noSteps` an empty initial plan (92-93); `invalidPlan` a
ValueError from the initial build (98-100); `success` the single success
exit (131-137) carrying the plan, the executed task graph (whose id→result
map the source serializes as `result`), the critic score and the 1-based
attempt number; `failedRun` the after-loop failure dict (169-176), whose
attempts field is always MAX_AUTONOMY_RETRIES; `criticRaised`
critique_result raised — the source has no handler there, so the exception
propagates out of execute_objective (a non-numeric score would likewise
raise at the >= comparison; the oracle's .error covers both). -/
inductive RunOutcome where
  | halted
  | noSteps
  | invalidPlan (msg : String)
  | planningError
  | success (steps : List RawStep) (tasks : List DAGTask) (score : ℚ)
      (attempts : Nat)
  | failedRun (score : ℚ) (feedback : String) (attempts : Nat)
  | criticRaised
deriving DecidableEq

/-- The control loop's external collaborators, per 0-based attempt index:
`plan` = router.get_structured_plan's "steps"; `critic n` =
router.critique_result's dict on attempt n (score/feedback may be absent);
`refine n` = router.refine_plan's "steps" on attempt n; `tools n` = the
tool-handler effects during attempt n's DAG execution. -/
structure RunEnv where
  throttle : Bool
  plan : Except Unit (List RawStep)
  critic : Nat → Except Unit (Option ℚ × Option String)
  refine : Nat → Except Unit (List RawStep)
  tools : Nat → OrchEnv

/-- The `for attempt in range(MAX_AUTONOMY_RETRIES)` loop of
execute_objective (110-167), recursing on the remaining attempts
(`remaining + 1 = maxRetries - attempt` at every call). Also counts the
number of DAG executions performed. Every `break` in the source falls
through to the after-loop failure dict with the current score/feedback and
`attempts = maxRetries` (169-176). Success requires no Failed task and
score >= threshold (127), and is the only success exit. -/
def runLoop (settings : GovSettings) (env : RunEnv) (objective : String) :
    List RawStep → List DAGTask → Nat → ℚ → String → Nat → RunOutcome × Nat
  | _, _, _, lastScore, lastFeedback, 0 =>
      (.failedRun lastScore lastFeedback settings.maxRetries, 0)
  | steps, tasks, attempt, _, _, remaining + 1 =>
      let tasks1 := orchExecuteDag (env.tools attempt) tasks
      let failedTasks := tasks1.filter (fun t => t.status == TaskStatus.failed)
      match env.critic attempt with
      | .error _ => (.criticRaised, 1)
      | .ok (scoreOpt, fbOpt) =>
          let score := scoreOpt.getD 0
          let feedback := fbOpt.getD "No feedback provided."
          if failedTasks = [] ∧ settings.threshold ≤ score then
            (.success steps tasks1 score (attempt + 1), 1)
          else if 0 < remaining then
            match env.refine attempt with
            | .error _ => (.failedRun score feedback settings.maxRetries, 1)
            | .ok newSteps =>
                if newSteps = [] then
                  (.failedRun score feedback settings.maxRetries, 1)
                else
                  match orchBuild newSteps objective with
                  | .error _ =>
                      (.failedRun score feedback settings.maxRetries, 1)
                  | .ok newTasks =>
                      let r := runLoop settings env objective newSteps
                        newTasks (attempt + 1) score feedback remaining
                      (r.1, r.2 + 1)
          else (.failedRun score feedback settings.maxRetries, 1)

/-- execute_objective (orchestrator.py 81-176): affective gate, initial
plan, initial build, then the bounded self-correction loop (initial
critic_score = 0.0, feedback = ""). The pair's second component counts DAG
executions (loop iterations entered). -/
def executeObjective (settings : GovSettings) (env : RunEnv)
    (objective autonomy : String) : RunOutcome × Nat :=
  if env.throttle ∧ autonomy = "RESTRICTED" then (.halted, 0)
  else
    match env.plan with
    | .error _ => (.planningError, 0)
    | .ok steps =>
        if steps = [] then (.noSteps, 0)
        else
          match orchBuild steps objective with
          | .error e => (.invalidPlan e, 0)
          | .ok tasks =>
              runLoop settings env objective steps tasks 0 0 ""
                settings.maxRetries

theorem runLoop_bound (settings : GovSettings) (env : RunEnv)
    (objective : String) :
    ∀ (remaining : Nat) (steps : List RawStep) (tasks : List DAGTask)
      (attempt : Nat) (ls : ℚ) (lf : String),
      (runLoop settings env objective steps tasks attempt ls lf remaining).2
        ≤ remaining ∧
      ∀ st tk sc a,
        (runLoop settings env objective steps tasks attempt ls lf remaining).1
          = .success st tk sc a →
        attempt + 1 ≤ a ∧ a ≤ attempt + remaining ∧
        settings.threshold ≤ sc ∧ ∀ t ∈ tk, t.status ≠ TaskStatus.failed := by
  intro remaining
  induction remaining with
  | zero =>
      intro steps tasks attempt ls lf
      refine ⟨le_refl 0, ?_⟩
      intro st tk sc a h
      simp [runLoop] at h
  | succ rem ih =>
      intro steps tasks attempt ls lf
      rw [runLoop]
      rcases env.critic attempt with u | p
      · dsimp only
        refine ⟨by omega, ?_⟩
        intro st tk sc a h
        simp at h
      · rcases p with ⟨scoreOpt, fbOpt⟩
        dsimp only
        by_cases hsucc :
            (orchExecuteDag (env.tools attempt) tasks).filter
              (fun t => t.status == TaskStatus.failed) = [] ∧
            settings.threshold ≤ scoreOpt.getD 0
        · rw [if_pos hsucc]
          refine ⟨by omega, ?_⟩
          intro st tk sc a h
          simp only [RunOutcome.success.injEq] at h
          rcases h with ⟨rfl, rfl, rfl, rfl⟩
          refine ⟨le_refl _, by omega, hsucc.2, ?_⟩
          intro t ht hst
          have hmem : t ∈ (orchExecuteDag (env.tools attempt) tasks).filter
              (fun t => t.status == TaskStatus.failed) :=
            List.mem_filter.2 ⟨ht, by simp [hst]⟩
          rw [hsucc.1] at hmem
          exact absurd hmem (by simp)
        · rw [if_neg hsucc]
          by_cases hrem : 0 < rem
          · rw [if_pos hrem]
            rcases env.refine attempt with u | newSteps
            · dsimp only
              refine ⟨by omega, ?_⟩
              intro st tk sc a h
              simp at h
            · dsimp only
              by_cases hempty : newSteps = []
              · rw [if_pos hempty]
                refine ⟨by omega, ?_⟩
                intro st tk sc a h
                simp at h
              · rw [if_neg hempty]
                rcases orchBuild newSteps objective with e | newTasks
                · dsimp only
                  refine ⟨by omega, ?_⟩
                  intro st tk sc a h
                  simp at h
                · have hrec := ih newSteps newTasks (attempt + 1)
                    (scoreOpt.getD 0) (fbOpt.getD "No feedback provided.")
                  dsimp only
                  refine ⟨by omega, ?_⟩
                  intro st tk sc a h
                  rcases hrec.2 st tk sc a h with ⟨h1, h2, h3, h4⟩
                  exact ⟨by omega, by omega, h3, h4⟩
          · rw [if_neg hrem]
            refine ⟨by omega, ?_⟩
            intro st tk sc a h
            simp at h

/-- C8: for every Run, the control loop performs at most
`MAX_AUTONOMY_RETRIES` DAG-execution attempts, and a success outcome is
returned only through the single success exit: on the attempt it reports
(a number between 1 and maxRetries), the critic score reached the
threshold AND the executed graph contains no Failed task. -/
theorem c8_bounded_attempts_single_success_exit (settings : GovSettings)
    (env : RunEnv) (objective autonomy : String) :
    (executeObjective settings env objective autonomy).2 ≤ settings.maxRetries ∧
    ∀ steps tasks score attempts,
      (executeObjective settings env objective autonomy).1 =
        .success steps tasks score attempts →
      1 ≤ attempts ∧ attempts ≤ settings.maxRetries ∧
      settings.threshold ≤ score ∧
      ∀ t ∈ tasks, t.status ≠ TaskStatus.failed := by
  unfold executeObjective
  by_cases hth : env.throttle ∧ autonomy = "RESTRICTED"
  · rw [if_pos hth]
    exact ⟨Nat.zero_le _, by intro steps tasks score attempts h; simp at h⟩
  · rw [if_neg hth]
    rcases env.plan with u | steps0
    · exact ⟨Nat.zero_le _, by intro steps tasks score attempts h; simp at h⟩
    · dsimp only
      by_cases hemp : steps0 = []
      · rw [if_pos hemp]
        exact ⟨Nat.zero_le _, by intro steps tasks score attempts h; simp at h⟩
      · rw [if_neg hemp]
        rcases orchBuild steps0 objective with e | tasks0
        · exact ⟨Nat.zero_le _,
            by intro steps tasks score attempts h; simp at h⟩
        · have h := runLoop_bound settings env objective settings.maxRetries
            steps0 tasks0 0 0 ""
          refine ⟨h.1, ?_⟩
          intro steps tasks score attempts hs
          rcases h.2 steps tasks score attempts hs with ⟨h1, h2, h3, h4⟩
          exact ⟨h1, by omega, h3, h4⟩

def stepW : RawStep :=
  { id := some "w", description := some "d", tool := some "web_search",
    dependencies := some [] }

/-- A run environment producing a clean first-attempt success. -/
def envRun : RunEnv where
  throttle := false
  plan := .ok [stepW]
  critic := fun _ => .ok (some 1, some "good")
  refine := fun _ => .error ()
  tools := fun _ => envNoTools

/-- The executed state of stepW's task. -/
def finalW : DAGTask :=
  { id := "w", action := "web_search"
    args := [("description", .s "d"), ("context", .s "obj"),
             ("dependency_data", .depMap [])]
    dependencies := []
    status := .completed
    result := some "[ SEARCH_RESULT ]: Found high-relevance data for 'd'..." }

/-- C8 witness: a concrete run (one web_search step, critic score 1)
succeeds on attempt 1 of the default 3, and the theorem's bounds hold
there. -/
theorem c8_witness :
    1 ≤ 1 ∧ 1 ≤ defaultSettings.maxRetries ∧ defaultSettings.threshold ≤ 1 ∧
    ∀ t ∈ [finalW], t.status ≠ TaskStatus.failed :=
  (c8_bounded_attempts_single_success_exit defaultSettings envRun
      "obj" "FULL").2 [stepW] [finalW] 1 1 (by decide)

/-! ### C3: cycle detection. Abstract graph level: `ids` the task ids in
insertion order, `deps` the dependency function (with `deps x = []` outside
`ids`, as taskDeps gives). -/

/-- Consecutive elements are dependency edges (x depends on its successor). -/
def EdgeChain (deps : String → List String) : List String → Prop
  | [] => True
  | [_] => True
  | a :: b :: rest => b ∈ deps a ∧ EdgeChain deps (b :: rest)

/-- A true cycle in the dependency graph: a path of length at least 2 whose
first and last elements coincide and whose consecutive elements are edges. -/
def IsCyclePath (deps : String → List String) (p : List String) : Prop :=
  2 ≤ p.length ∧ p.head? = p.getLast? ∧ EdgeChain deps p

def unvisitedCount (ids visited : List String) : Nat :=
  ids.countP fun i => decide (i ∉ visited)

theorem uc_le (ids visited : List String) :
    unvisitedCount ids visited ≤ ids.length :=
  List.countP_le_length _

theorem uc_mono (ids : List String) {V V1 : List String}
    (h : ∀ x ∈ V, x ∈ V1) :
    unvisitedCount ids V1 ≤ unvisitedCount ids V := by
  unfold unvisitedCount
  refine List.countP_mono_left ?_
  intro a _ ha
  simp only [decide_eq_true_eq] at *
  exact fun hmem => ha (h a hmem)

theorem countP_cons_of_neg (p : String → Bool) (l : List String) (a : String)
    (h : p a = false) : (a :: l).countP p = l.countP p := by
  simp [List.countP_cons, h]

theorem countP_cons_of_pos (p : String → Bool) (l : List String) (a : String)
    (h : p a = true) : (a :: l).countP p = l.countP p + 1 := by
  simp [List.countP_cons, h]

theorem uc_insert_lt (ids : List String) {V : List String} {v : String}
    (hv : v ∈ ids) (hnv : v ∉ V) :
    unvisitedCount ids (v :: V) < unvisitedCount ids V := by
  induction ids with
  | nil => exact absurd hv (by simp)
  | cons i rest ih =>
      simp only [unvisitedCount]
      by_cases hiv : i = v
      · subst hiv
        rw [countP_cons_of_neg _ _ _ (by simp),
          countP_cons_of_pos (fun x => decide (x ∉ V)) _ _ (by simp [hnv])]
        have hmono := @uc_mono rest V (i :: V) (fun x hx => by simp [hx])
        simp only [unvisitedCount] at hmono
        omega
      · have hvrest : v ∈ rest := by
          rcases List.mem_cons.1 hv with h | h
          · exact absurd h.symm hiv
          · exact h
        have hlt := ih hvrest
        simp only [unvisitedCount] at hlt
        by_cases hmem : i ∈ V
        · rw [countP_cons_of_neg _ _ _ (by simp [hmem]),
            countP_cons_of_neg (fun x => decide (x ∉ V)) _ _ (by simp [hmem])]
          exact hlt
        · have hi1 : i ∉ v :: V := by simp [hiv, hmem]
          rw [countP_cons_of_pos _ _ _ (by simp [hi1]),
            countP_cons_of_pos (fun x => decide (x ∉ V)) _ _ (by simp [hmem])]
          omega

/-- odfsFold grows the visited set (parameterized by the same property of
the recursive visit). -/
theorem odfsFold_subset
    (next : List String → List String → String →
      Option (Except String (List String)))
    (hnext : ∀ V S n V1, next V S n = some (.ok V1) → ∀ x ∈ V, x ∈ V1) :
    ∀ (ns V S V1 : List String),
      odfsFold next V S ns = some (.ok V1) → ∀ x ∈ V, x ∈ V1 := by
  intro ns
  induction ns with
  | nil =>
      intro V S V1 h
      simp only [odfsFold] at h
      injection h with h
      injection h with h
      subst h; exact fun x hx => hx
  | cons n rest ih =>
      intro V S V1 h
      simp only [odfsFold] at h
      by_cases h1 : n ∈ V
      · rw [if_pos h1] at h
        by_cases h2 : n ∈ S
        · rw [if_pos h2] at h
          injection h with h; injection h
        · rw [if_neg h2] at h
          exact ih V S V1 h
      · rw [if_neg h1] at h
        rcases hn : next V S n with _ | r
        · rw [hn] at h; exact absurd h (by simp)
        · rw [hn] at h
          rcases r with e | V2
          · injection h with h; injection h
          · have hsub := hnext V S n V2 hn
            exact fun x hx => ih V2 S V1 h x (hsub x hx)

theorem odfs_subset (ids : List String) (deps : String → List String) :
    ∀ (fuel : Nat) (V S : List String) (v : String) (V1 : List String),
      odfs ids deps fuel V S v = some (.ok V1) →
      (∀ x ∈ V, x ∈ V1) ∧ v ∈ V1 := by
  intro fuel
  induction fuel with
  | zero => intro V S v V1 h; simp [odfs] at h
  | succ f ih =>
      intro V S v V1 h
      simp only [odfs] at h
      by_cases h1 : v ∈ V
      · rw [if_pos h1] at h
        injection h with h; injection h with h
        subst h
        exact ⟨fun x hx => hx, h1⟩
      · rw [if_neg h1] at h
        by_cases h2 : v ∈ ids
        · rw [if_pos h2] at h
          have hsub := odfsFold_subset (odfs ids deps f)
            (fun V S n V2 hn => (ih V S n V2 hn).1) (deps v) (v :: V)
            (S ++ [v]) V1 h
          exact ⟨fun x hx => hsub x (by simp [hx]), hsub v (by simp)⟩
        · rw [if_neg h2] at h
          injection h with h; injection h with h
          subst h
          exact ⟨fun x hx => by simp [hx], by simp⟩

theorem odfsFold_isSome (ids : List String) (f : Nat)
    (next : List String → List String → String →
      Option (Except String (List String)))
    (hnext_some : ∀ V S n, unvisitedCount ids V < f → next V S n ≠ none)
    (hnext_sub : ∀ V S n V1, next V S n = some (.ok V1) → ∀ x ∈ V, x ∈ V1) :
    ∀ (ns V S : List String), unvisitedCount ids V < f →
      odfsFold next V S ns ≠ none := by
  intro ns
  induction ns with
  | nil => intro V S _ h; simp [odfsFold] at h
  | cons n rest ih =>
      intro V S hf h
      simp only [odfsFold] at h
      by_cases h1 : n ∈ V
      · rw [if_pos h1] at h
        by_cases h2 : n ∈ S
        · rw [if_pos h2] at h; exact absurd h (by simp)
        · rw [if_neg h2] at h; exact ih V S hf h
      · rw [if_neg h1] at h
        rcases hn : next V S n with _ | r
        · exact hnext_some V S n hf hn
        · rw [hn] at h
          rcases r with e | V1
          · exact absurd h (by simp)
          · have hf1 : unvisitedCount ids V1 < f :=
              lt_of_le_of_lt (uc_mono ids (hnext_sub V S n V1 hn)) hf
            exact ih V1 S hf1 h

theorem odfs_isSome (ids : List String) (deps : String → List String) :
    ∀ (fuel : Nat) (V S : List String) (v : String),
      unvisitedCount ids V < fuel → odfs ids deps fuel V S v ≠ none := by
  intro fuel
  induction fuel with
  | zero => intro V S v h; omega
  | succ f ih =>
      intro V S v hf h
      simp only [odfs] at h
      by_cases h1 : v ∈ V
      · rw [if_pos h1] at h; exact absurd h (by simp)
      · rw [if_neg h1] at h
        by_cases h2 : v ∈ ids
        · rw [if_pos h2] at h
          have hvf : unvisitedCount ids (v :: V) < f :=
            lt_of_lt_of_le (uc_insert_lt ids h2 h1) (by omega)
          exact odfsFold_isSome ids f (odfs ids deps f)
            (fun V S n hlt => ih V S n hlt)
            (fun V S n V1 hn => (odfs_subset ids deps f V S n V1 hn).1)
            (deps v) (v :: V) (S ++ [v]) hvf h
        · rw [if_neg h2] at h; exact absurd h (by simp)

theorem odetectLoop_isSome (ids : List String) (deps : String → List String) :
    ∀ (pending V : List String), odetectLoop ids deps V pending ≠ none := by
  intro pending
  induction pending with
  | nil => intro V h; simp [odetectLoop] at h
  | cons tid rest ih =>
      intro V h
      simp only [odetectLoop] at h
      by_cases h1 : tid ∈ V
      · rw [if_pos h1] at h; exact ih V h
      · rw [if_neg h1] at h
        rcases hd : odfs ids deps (ids.length + 1) V [] tid with _ | r
        · exact odfs_isSome ids deps (ids.length + 1) V [] tid
            (lt_of_le_of_lt (uc_le ids V) (by omega)) hd
        · rw [hd] at h
          rcases r with e | V1
          · exact absurd h (by simp)
          · exact ih V1 h

theorem edgeChain_tail (deps : String → List String) :
    ∀ {l : List String}, EdgeChain deps l → EdgeChain deps l.tail := by
  intro l h
  match l with
  | [] => trivial
  | [a] => trivial
  | a :: b :: rest => exact h.2

theorem edgeChain_drop (deps : String → List String) :
    ∀ (i : Nat) (l : List String), EdgeChain deps l →
      EdgeChain deps (l.drop i) := by
  intro i
  induction i with
  | zero => intro l h; exact h
  | succ j ih =>
      intro l h
      match l with
      | [] => trivial
      | a :: rest =>
          rw [List.drop_succ_cons]
          exact ih rest (edgeChain_tail deps h)

theorem edgeChain_concat (deps : String → List String) :
    ∀ (l : List String) (b x : String), EdgeChain deps l →
      l.getLast? = some b → x ∈ deps b → EdgeChain deps (l ++ [x]) := by
  intro l
  induction l with
  | nil => intro b x _ hb _; simp at hb
  | cons a rest ih =>
      intro b x hc hb hx
      match rest, hc, hb with
      | [], _, hb =>
          simp at hb
          subst hb
          exact ⟨hx, trivial⟩
      | c :: rest1, hc, hb =>
          refine ⟨hc.1, ?_⟩
          exact ih b x hc.2 (by simpa using hb) hx

theorem getLast?_drop_of_ne_nil :
    ∀ (i : Nat) (l : List String), l.drop i ≠ [] →
      (l.drop i).getLast? = l.getLast? := by
  intro i
  induction i with
  | zero => intro l _; rfl
  | succ j ih =>
      intro l hne
      match l with
      | [] => simp at hne
      | a :: rest =>
          rw [List.drop_succ_cons] at *
          rw [ih rest hne]
          match rest, hne with
          | b :: rest1, _ => simp
          | [], hne => simp at hne

theorem odfsFold_error (deps : String → List String)
    (next : List String → List String → String →
      Option (Except String (List String)))
    (hnext_err : ∀ V S n e, EdgeChain deps (S ++ [n]) →
      next V S n = some (.error e) →
      ∃ p, IsCyclePath deps p ∧ e = cycleMsgOf p) :
    ∀ (ns V S : List String) (last e : String),
      EdgeChain deps S → S.getLast? = some last →
      (∀ n ∈ ns, n ∈ deps last) →
      odfsFold next V S ns = some (.error e) →
      ∃ p, IsCyclePath deps p ∧ e = cycleMsgOf p := by
  intro ns
  induction ns with
  | nil => intro V S last e _ _ _ h; simp [odfsFold] at h
  | cons n rest ih =>
      intro V S last e hchain hlast hdeps h
      simp only [odfsFold] at h
      by_cases h1 : n ∈ V
      · rw [if_pos h1] at h
        by_cases h2 : n ∈ S
        · rw [if_pos h2] at h
          injection h with h
          injection h with h
          refine ⟨S.drop (S.indexOf n) ++ [n], ?_, h.symm⟩
          have hlt : S.indexOf n < S.length := List.indexOf_lt_length.2 h2
          have hdropeq : S.drop (S.indexOf n) =
              S[S.indexOf n] :: S.drop (S.indexOf n + 1) :=
            List.drop_eq_getElem_cons hlt
          have hget : S[S.indexOf n] = n := List.getElem_indexOf hlt
          have hne : S.drop (S.indexOf n) ≠ [] := by
            rw [hdropeq]; simp
          refine ⟨?_, ?_, ?_⟩
          · rw [hdropeq]; simp
          · rw [List.getLast?_concat]
            rw [hdropeq, hget]
            simp
          · exact edgeChain_concat deps _ last n
              (edgeChain_drop deps _ _ hchain)
              ((getLast?_drop_of_ne_nil _ _ hne).trans hlast)
              (hdeps n (by simp))
        · rw [if_neg h2] at h
          exact ih V S last e hchain hlast
            (fun m hm => hdeps m (by simp [hm])) h
      · rw [if_neg h1] at h
        rcases hn : next V S n with _ | r
        · rw [hn] at h; exact absurd h (by simp)
        · rw [hn] at h
          rcases r with e1 | V1
          · injection h with h
            injection h with h
            subst h
            exact hnext_err V S n e1
              (edgeChain_concat deps S last n hchain hlast (hdeps n (by simp)))
              hn
          · exact ih V1 S last e hchain hlast
              (fun m hm => hdeps m (by simp [hm])) h

theorem odfs_error (ids : List String) (deps : String → List String) :
    ∀ (fuel : Nat) (V S : List String) (v : String) (e : String),
      EdgeChain deps (S ++ [v]) →
      odfs ids deps fuel V S v = some (.error e) →
      ∃ p, IsCyclePath deps p ∧ e = cycleMsgOf p := by
  intro fuel
  induction fuel with
  | zero => intro V S v e _ h; simp [odfs] at h
  | succ f ih =>
      intro V S v e hchain h
      simp only [odfs] at h
      by_cases h1 : v ∈ V
      · rw [if_pos h1] at h; injection h with h; injection h
      · rw [if_neg h1] at h
        by_cases h2 : v ∈ ids
        · rw [if_pos h2] at h
          exact odfsFold_error deps (odfs ids deps f)
            (fun V1 S1 n e1 hc hn => ih V1 S1 n e1 hc hn)
            (deps v) (v :: V) (S ++ [v]) v e hchain
            (List.getLast?_concat S) (fun n hn => hn) h
        · rw [if_neg h2] at h; injection h with h; injection h

theorem odetectLoop_error (ids : List String) (deps : String → List String) :
    ∀ (pending V : List String) (e : String),
      odetectLoop ids deps V pending = some (.error e) →
      ∃ p, IsCyclePath deps p ∧ e = cycleMsgOf p := by
  intro pending
  induction pending with
  | nil => intro V e h; simp [odetectLoop] at h
  | cons tid rest ih =>
      intro V e h
      simp only [odetectLoop] at h
      by_cases h1 : tid ∈ V
      · rw [if_pos h1] at h; exact ih V e h
      · rw [if_neg h1] at h
        rcases hd : odfs ids deps (ids.length + 1) V [] tid with _ | r
        · rw [hd] at h; exact absurd h (by simp)
        · rw [hd] at h
          rcases r with e1 | V1
          · injection h with h
            injection h with h
            subst h
            exact odfs_error ids deps (ids.length + 1) V [] tid e1
              (by simp [EdgeChain]) hd
          · exact ih V1 e h

/-- Ghost invariant for the classic three-color argument: black nodes
(visited and off the stack) carry ranks below a counter that strictly
decrease along dependency edges, and their dependencies are black. -/
def BlackInv (deps : String → List String) (V S : List String)
    (rank : String → Nat) (c : Nat) : Prop :=
  ∀ v, v ∈ V → v ∉ S → rank v < c ∧
    ∀ d ∈ deps v, d ∈ V ∧ d ∉ S ∧ rank d < rank v

theorem blackInv_push (deps : String → List String)
    {V S : List String} {rank : String → Nat} {c : Nat} {v : String}
    (hv : v ∉ V) (hinv : BlackInv deps V S rank c) :
    BlackInv deps (v :: V) (S ++ [v]) rank c := by
  intro x hx hxs
  have hxv : x ≠ v := by
    intro h; subst h; exact hxs (by simp)
  have hxV : x ∈ V := by
    rcases List.mem_cons.1 hx with h | h
    · exact absurd h hxv
    · exact h
  have hxS : x ∉ S := fun h => hxs (by simp [h])
  rcases hinv x hxV hxS with ⟨hr, hd⟩
  refine ⟨hr, ?_⟩
  intro d hdm
  rcases hd d hdm with ⟨h1, h2, h3⟩
  have hdv : d ≠ v := fun h => hv (h ▸ h1)
  exact ⟨by simp [h1], by simp [h2, hdv], h3⟩

theorem odfsFold_black (deps : String → List String)
    (next : List String → List String → String →
      Option (Except String (List String)))
    (hnext : ∀ V S n V1 rank c, n ∉ V → (∀ x ∈ S, x ∈ V) →
      BlackInv deps V S rank c → next V S n = some (.ok V1) →
      ∃ rank1 c1, BlackInv deps V1 S rank1 c1 ∧ (∀ x ∈ V, x ∈ V1) ∧ n ∈ V1) :
    ∀ (ns V S V1 : List String) (rank : String → Nat) (c : Nat),
      (∀ x ∈ S, x ∈ V) → BlackInv deps V S rank c →
      odfsFold next V S ns = some (.ok V1) →
      ∃ rank1 c1, BlackInv deps V1 S rank1 c1 ∧ (∀ x ∈ V, x ∈ V1) ∧
        ∀ n ∈ ns, n ∈ V1 ∧ n ∉ S := by
  intro ns
  induction ns with
  | nil =>
      intro V S V1 rank c _ hinv h
      simp only [odfsFold] at h
      injection h with h; injection h with h
      subst h
      exact ⟨rank, c, hinv, fun x hx => hx, by simp⟩
  | cons n rest ih =>
      intro V S V1 rank c hSV hinv h
      simp only [odfsFold] at h
      by_cases h1 : n ∈ V
      · rw [if_pos h1] at h
        by_cases h2 : n ∈ S
        · rw [if_pos h2] at h; injection h with h; injection h
        · rw [if_neg h2] at h
          rcases ih V S V1 rank c hSV hinv h with ⟨rank1, c1, hinv1, hsub, hrest⟩
          refine ⟨rank1, c1, hinv1, hsub, ?_⟩
          intro m hm
          rcases List.mem_cons.1 hm with rfl | hmr
          · exact ⟨hsub m h1, h2⟩
          · exact hrest m hmr
      · rw [if_neg h1] at h
        rcases hn : next V S n with _ | r
        · rw [hn] at h; exact absurd h (by simp)
        · rw [hn] at h
          rcases r with e | V2
          · injection h with h; injection h
          · rcases hnext V S n V2 rank c h1 hSV hinv hn
              with ⟨rank1, c1, hinv1, hsub1, hnV2⟩
            have hSV2 : ∀ x ∈ S, x ∈ V2 := fun x hx => hsub1 x (hSV x hx)
            rcases ih V2 S V1 rank1 c1 hSV2 hinv1 h
              with ⟨rank2, c2, hinv2, hsub2, hrest⟩
            refine ⟨rank2, c2, hinv2, fun x hx => hsub2 x (hsub1 x hx), ?_⟩
            intro m hm
            rcases List.mem_cons.1 hm with rfl | hmr
            · exact ⟨hsub2 m hnV2, fun hms => h1 (hSV m hms)⟩
            · exact hrest m hmr

theorem odfs_black (ids : List String) (deps : String → List String)
    (hout : ∀ x, x ∉ ids → deps x = []) :
    ∀ (fuel : Nat) (V S V1 : List String) (v : String)
      (rank : String → Nat) (c : Nat),
      v ∉ V → (∀ x ∈ S, x ∈ V) → BlackInv deps V S rank c →
      odfs ids deps fuel V S v = some (.ok V1) →
      ∃ rank1 c1, BlackInv deps V1 S rank1 c1 ∧ (∀ x ∈ V, x ∈ V1) ∧
        v ∈ V1 := by
  intro fuel
  induction fuel with
  | zero => intro V S V1 v rank c _ _ _ h; simp [odfs] at h
  | succ f ih =>
      intro V S V1 v rank c hv hSV hinv h
      simp only [odfs] at h
      rw [if_neg hv] at h
      by_cases h2 : v ∈ ids
      · rw [if_pos h2] at h
        have hSV1 : ∀ x ∈ S ++ [v], x ∈ v :: V := by
          intro x hx
          rcases List.mem_append.1 hx with hx | hx
          · exact List.mem_cons_of_mem _ (hSV x hx)
          · simp at hx; simp [hx]
        rcases odfsFold_black deps (odfs ids deps f)
            (fun V0 S0 n V2 rank0 c0 hn0 hS0 hinv0 heq =>
              ih V0 S0 V2 n rank0 c0 hn0 hS0 hinv0 heq)
            (deps v) (v :: V) (S ++ [v]) V1 rank c hSV1
            (blackInv_push deps hv hinv) h
          with ⟨rank1, c1, hinv1, hsub1, hdeps1⟩
        have hvV1 : v ∈ V1 := hsub1 v (by simp)
        have hvS : v ∉ S := fun hs => hv (hSV v hs)
        refine ⟨fun x => if x = v then c1 else rank1 x, c1 + 1, ?_,
          fun x hx => hsub1 x (by simp [hx]), hvV1⟩
        intro x hx hxS
        by_cases hxv : x = v
        · subst hxv
          refine ⟨by simp, ?_⟩
          intro d hd
          rcases hdeps1 d hd with ⟨hdV1, hdS1⟩
          have hdS : d ∉ S := fun hs => hdS1 (by simp [hs])
          have hdv : d ≠ x := by
            intro hh; subst hh; exact hdS1 (by simp)
          rcases hinv1 d hdV1 hdS1 with ⟨hrd, _⟩
          exact ⟨hdV1, hdS, by simp [hdv, hrd]⟩
        · have hxS1 : x ∉ S ++ [v] := by simp [hxS, hxv]
          rcases hinv1 x hx hxS1 with ⟨hrx, hdx⟩
          refine ⟨by simp [hxv]; omega, ?_⟩
          intro d hd
          rcases hdx d hd with ⟨hdV1, hdS1, hdr⟩
          have hdS : d ∉ S := fun hs => hdS1 (by simp [hs])
          have hdv : d ≠ v := by
            intro hh; subst hh; exact hdS1 (by simp)
          exact ⟨hdV1, hdS, by simp [hdv, hxv]; omega⟩
      · rw [if_neg h2] at h
        injection h with h; injection h with h
        subst h
        have hvS : v ∉ S := fun hs => hv (hSV v hs)
        refine ⟨fun x => if x = v then c else rank x, c + 1, ?_,
          fun x hx => by simp [hx], by simp⟩
        intro x hx hxS
        by_cases hxv : x = v
        · subst hxv
          refine ⟨by simp, ?_⟩
          intro d hd
          rw [hout x h2] at hd
          simp at hd
        · have hxV : x ∈ V := by
            rcases List.mem_cons.1 hx with hh | hh
            · exact absurd hh hxv
            · exact hh
          rcases hinv x hxV hxS with ⟨hrx, hdx⟩
          refine ⟨by simp [hxv]; omega, ?_⟩
          intro d hd
          rcases hdx d hd with ⟨hdV, hdS, hdr⟩
          have hdv : d ≠ v := fun hh => hv (hh ▸ hdV)
          exact ⟨by simp [hdV], hdS, by simp [hdv, hxv]; omega⟩

theorem odetectLoop_black (ids : List String) (deps : String → List String)
    (hout : ∀ x, x ∉ ids → deps x = []) :
    ∀ (pending V : List String) (rank : String → Nat) (c : Nat),
      BlackInv deps V [] rank c →
      odetectLoop ids deps V pending = some (.ok ()) →
      ∃ V1 rank1 c1, BlackInv deps V1 [] rank1 c1 ∧
        (∀ x ∈ V, x ∈ V1) ∧ ∀ x ∈ pending, x ∈ V1 := by
  intro pending
  induction pending with
  | nil =>
      intro V rank c hinv _
      exact ⟨V, rank, c, hinv, fun x hx => hx, by simp⟩
  | cons tid rest ih =>
      intro V rank c hinv h
      simp only [odetectLoop] at h
      by_cases h1 : tid ∈ V
      · rw [if_pos h1] at h
        rcases ih V rank c hinv h with ⟨V1, rank1, c1, hinv1, hVsub, hrest⟩
        refine ⟨V1, rank1, c1, hinv1, hVsub, ?_⟩
        intro x hx
        rcases List.mem_cons.1 hx with rfl | hxr
        · exact hVsub x h1
        · exact hrest x hxr
      · rw [if_neg h1] at h
        rcases hd : odfs ids deps (ids.length + 1) V [] tid with _ | r
        · rw [hd] at h; exact absurd h (by simp)
        · rw [hd] at h
          rcases r with e | V2
          · injection h with h; injection h
          · rcases odfs_black ids deps hout (ids.length + 1) V [] V2 tid
                rank c h1 (by simp) hinv hd
              with ⟨rank1, c1, hinv1, hsub1, htid⟩
            rcases ih V2 rank1 c1 hinv1 h
              with ⟨V1, rank2, c2, hinv2, hsub2, hrest⟩
            refine ⟨V1, rank2, c2, hinv2,
              fun x hx => hsub2 x (hsub1 x hx), ?_⟩
            intro x hx
            rcases List.mem_cons.1 hx with rfl | hxr
            · exact hsub2 x htid
            · exact hrest x hxr

theorem chain_rank_lt (deps : String → List String) {V : List String}
    {rank : String → Nat} {c : Nat} (hinv : BlackInv deps V [] rank c) :
    ∀ (p : List String) (a b : String), EdgeChain deps p →
      p.head? = some a → p.getLast? = some b → 2 ≤ p.length → a ∈ V →
      rank b < rank a := by
  intro p
  induction p with
  | nil => intro a b _ ha _ _ _; simp at ha
  | cons x rest ih =>
      intro a b hchain ha hb hlen haV
      simp only [List.head?_cons, Option.some.injEq] at ha
      subst ha
      match rest, hchain, hb, hlen, ih with
      | [], _, _, hlen, _ => simp at hlen
      | y :: rest1, hchain, hb, _, ih =>
          rcases hinv x haV (by simp) with ⟨_, hd⟩
          rcases hd y hchain.1 with ⟨hyV, _, hyr⟩
          match rest1, hchain, hb, ih with
          | [], _, hb, _ =>
              have hby : y = b := by simpa using hb
              subst hby
              exact hyr
          | z :: rest2, hchain, hb, ih =>
              have hb1 : (y :: z :: rest2).getLast? = some b := by
                simpa using hb
              exact lt_trans
                (ih y b hchain.2 rfl hb1 (by simp) hyV) hyr

theorem no_cycle_of_black (ids : List String) (deps : String → List String)
    (hout : ∀ x, x ∉ ids → deps x = []) {V : List String}
    {rank : String → Nat} {c : Nat} (hinv : BlackInv deps V [] rank c)
    (hall : ∀ x ∈ ids, x ∈ V) :
    ∀ p, ¬ IsCyclePath deps p := by
  rintro p ⟨hlen, hhl, hchain⟩
  match p, hlen, hhl, hchain with
  | x :: y :: rest, _, hhl, hchain =>
      have hy : y ∈ deps x := hchain.1
      have hxids : x ∈ ids := by
        by_contra hx
        rw [hout x hx] at hy
        simp at hy
      have hlast : (x :: y :: rest).getLast? = some x := by
        rw [← hhl]; rfl
      exact absurd
        (chain_rank_lt deps hinv (x :: y :: rest) x x hchain rfl hlast
          (by simp) (hall x hxids))
        (lt_irrefl _)

theorem odetect_cycle_not_ok (ids : List String)
    (deps : String → List String) (hout : ∀ x, x ∉ ids → deps x = [])
    (hcyc : ∃ p, IsCyclePath deps p) :
    odetectLoop ids deps [] ids ≠ some (.ok ()) := by
  intro h
  rcases odetectLoop_black ids deps hout ids [] (fun _ => 0) 0
      (fun v hv => absurd hv (by simp)) h
    with ⟨V1, rank1, c1, hinv1, _, hall⟩
  rcases hcyc with ⟨p, hp⟩
  exact no_cycle_of_black ids deps hout hinv1 hall p hp

theorem taskDeps_out (tasks : List DAGTask) :
    ∀ x, x ∉ taskIds tasks → taskDeps tasks x = [] := by
  intro x hx
  unfold taskDeps
  rcases hf : findTask tasks x with _ | t
  · rfl
  · exfalso
    apply hx
    have hp := List.find?_some hf
    have hmem := List.mem_of_find?_eq_some hf
    unfold taskIds
    simp only [List.mem_map]
    exact ⟨t, hmem, by simpa using hp⟩

/-- On a cyclic task graph, the orchestrator detect loop raises an error
whose message is the rendering of a true cycle path. -/
theorem odetectLoop_cycle (tasks : List DAGTask)
    (hcyc : ∃ p, IsCyclePath (taskDeps tasks) p) :
    ∃ e p, odetectLoop (taskIds tasks) (taskDeps tasks) [] (taskIds tasks)
        = some (.error e) ∧
      IsCyclePath (taskDeps tasks) p ∧ e = cycleMsgOf p := by
  have hout := taskDeps_out tasks
  have hns := odetectLoop_isSome (taskIds tasks) (taskDeps tasks)
    (taskIds tasks) []
  have hnok := odetect_cycle_not_ok _ _ hout hcyc
  rcases hl : odetectLoop (taskIds tasks) (taskDeps tasks) [] (taskIds tasks)
    with _ | r
  · exact absurd hl hns
  · rcases r with e | u
    · rcases odetectLoop_error (taskIds tasks) (taskDeps tasks)
          (taskIds tasks) [] e hl with ⟨p, hp, he⟩
      exact ⟨e, p, rfl, hp, he⟩
    · cases u
      exact absurd hl hnok

/-! Bisimulation between the orchestrator dfs and the engine Planner dfs:
their control flow is identical; only the reported error value differs. -/

def DetRel : Option (Except String (List String)) →
    Option (Except Unit (List String)) → Prop
  | none, none => True
  | some (.ok V1), some (.ok V2) => V1 = V2
  | some (.error _), some (.error _) => True
  | _, _ => False

def DetRelU : Option (Except String Unit) → Option (Except Unit Unit) → Prop
  | none, none => True
  | some (.ok _), some (.ok _) => True
  | some (.error _), some (.error _) => True
  | _, _ => False

theorem pdfsFold_rel
    (nextO : List String → List String → String →
      Option (Except String (List String)))
    (nextP : List String → List String → String →
      Option (Except Unit (List String)))
    (hnext : ∀ V S n, DetRel (nextO V S n) (nextP V S n)) :
    ∀ (ns V S : List String),
      DetRel (odfsFold nextO V S ns) (pdfsFold nextP V S ns) := by
  intro ns
  induction ns with
  | nil => intro V S; simp [odfsFold, pdfsFold, DetRel]
  | cons n rest ih =>
      intro V S
      simp only [odfsFold, pdfsFold]
      by_cases h1 : n ∈ V
      · rw [if_pos h1, if_pos h1]
        by_cases h2 : n ∈ S
        · rw [if_pos h2, if_pos h2]; simp [DetRel]
        · rw [if_neg h2, if_neg h2]; exact ih V S
      · rw [if_neg h1, if_neg h1]
        have hrel := hnext V S n
        rcases ho : nextO V S n with _ | ro <;>
          rcases hp : nextP V S n with _ | rp <;>
          rw [ho, hp] at hrel
        · simp [DetRel]
        · simp [DetRel] at hrel
        · simp [DetRel] at hrel
        · rcases ro with eo | Vo <;> rcases rp with ep | Vp
          · simp [DetRel]
          · simp [DetRel] at hrel
          · simp [DetRel] at hrel
          · have hVeq : Vo = Vp := hrel
            subst hVeq
            exact ih Vo S

theorem pdfs_rel (ids : List String) (deps : String → List String) :
    ∀ (fuel : Nat) (V S : List String) (v : String),
      DetRel (odfs ids deps fuel V S v) (pdfs ids deps fuel V S v) := by
  intro fuel
  induction fuel with
  | zero => intro V S v; simp [odfs, pdfs, DetRel]
  | succ f ih =>
      intro V S v
      simp only [odfs, pdfs]
      by_cases h1 : v ∈ V
      · rw [if_pos h1, if_pos h1]; simp [DetRel]
      · rw [if_neg h1, if_neg h1]
        by_cases h2 : v ∈ ids
        · rw [if_pos h2, if_pos h2]
          exact pdfsFold_rel (odfs ids deps f) (pdfs ids deps f) ih
            (deps v) (v :: V) (S ++ [v])
        · rw [if_neg h2, if_neg h2]; simp [DetRel]

theorem pdetectLoop_rel (ids : List String) (deps : String → List String) :
    ∀ (pending V : List String),
      DetRelU (odetectLoop ids deps V pending)
        (pdetectLoop ids deps V pending) := by
  intro pending
  induction pending with
  | nil => intro V; simp [odetectLoop, pdetectLoop, DetRelU]
  | cons tid rest ih =>
      intro V
      simp only [odetectLoop, pdetectLoop]
      by_cases h1 : tid ∈ V
      · rw [if_pos h1, if_pos h1]; exact ih V
      · rw [if_neg h1, if_neg h1]
        have hrel := pdfs_rel ids deps (ids.length + 1) V [] tid
        rcases ho : odfs ids deps (ids.length + 1) V [] tid with _ | ro <;>
          rcases hp : pdfs ids deps (ids.length + 1) V [] tid with _ | rp <;>
          rw [ho, hp] at hrel
        · simp [DetRelU]
        · simp [DetRel] at hrel
        · simp [DetRel] at hrel
        · rcases ro with eo | Vo <;> rcases rp with ep | Vp
          · simp [DetRelU]
          · simp [DetRel] at hrel
          · simp [DetRel] at hrel
          · have hVeq : Vo = Vp := hrel
            subst hVeq
            exact ih Vo

theorem plannerPass1_of_orchPass1 (objective : String) :
    ∀ (steps : List RawStep) (acc tasks : List DAGTask),
      orchPass1 objective acc steps = .ok tasks →
      plannerPass1 objective acc steps = tasks := by
  intro steps
  induction steps with
  | nil =>
      intro acc tasks h
      have h2 : acc = tasks := by simpa [orchPass1] using h
      subst h2
      rfl
  | cons step rest ih =>
      intro acc tasks h
      simp only [orchPass1] at h
      rcases hid : step.id with _ | tid <;> rw [hid] at h <;> dsimp only at h
      · injection h
      · by_cases he : tid = ""
        · rw [if_pos he] at h; injection h
        · rw [if_neg he] at h
          by_cases hdup : (findTask acc tid).isSome
          · rw [if_pos hdup] at h; injection h
          · rw [if_neg hdup] at h
            simp only [plannerPass1, hid]
            rw [if_neg he]
            have hup : upsertTask acc (mkStepTask objective step tid) =
                acc ++ [mkStepTask objective step tid] := by
              unfold upsertTask
              rw [if_neg (by simpa [mkStepTask] using hdup)]
            rw [hup]
            exact ih _ tasks h

theorem checkDepList_ok_transfer (tasks : List DAGTask) (tid : String)
    (nf ng : String → String) :
    ∀ l, checkDepList tasks tid nf l = .ok () →
      checkDepList tasks tid ng l = .ok () := by
  intro l
  induction l with
  | nil => intro _; rfl
  | cons d rest ih =>
      intro h
      simp only [checkDepList] at *
      by_cases h1 : d = tid
      · rw [if_pos h1] at h; injection h
      · rw [if_neg h1] at h ⊢
        by_cases h2 : (findTask tasks d).isNone
        · rw [if_pos h2] at h; injection h
        · rw [if_neg h2] at h ⊢
          exact ih h

theorem checkDeps_ok_transfer (tasks : List DAGTask)
    (nf ng : String → String → String) :
    ∀ ts, checkDeps tasks nf ts = .ok () → checkDeps tasks ng ts = .ok () := by
  intro ts
  induction ts with
  | nil => intro _; rfl
  | cons t rest ih =>
      intro h
      simp only [checkDeps] at *
      rcases hc : checkDepList tasks t.id (nf t.id) t.dependencies with e | u
      · rw [hc] at h; injection h
      · rw [hc] at h
        have hg := checkDepList_ok_transfer tasks t.id (nf t.id) (ng t.id)
          t.dependencies hc
        rw [hg]
        exact ih h

/-- On a cyclic graph the engine Planner detector raises the generic
message (via the bisimulation with the orchestrator detector). -/
theorem plannerDetect_cycle (tasks : List DAGTask)
    (hcyc : ∃ p, IsCyclePath (taskDeps tasks) p) :
    plannerDetect tasks = .error "Cycle detected in Execution Plan." := by
  rcases odetectLoop_cycle tasks hcyc with ⟨e, p, hl, _, _⟩
  have hrel := pdetectLoop_rel (taskIds tasks) (taskDeps tasks)
    (taskIds tasks) []
  rw [hl] at hrel
  rcases hp : pdetectLoop (taskIds tasks) (taskDeps tasks) []
      (taskIds tasks) with _ | r
  · rw [hp] at hrel; exact absurd hrel (by simp [DetRelU])
  · rcases r with u | u
    · unfold plannerDetect
      rw [hp]
    · rw [hp] at hrel; exact absurd hrel (by simp [DetRelU])

def stepCa : RawStep :=
  { id := some "a", description := some "first", tool := some "t",
    dependencies := some ["b"] }

def stepCb : RawStep :=
  { id := some "b", description := some "second", tool := some "t",
    dependencies := some ["a"] }

def tasksCyc : List DAGTask :=
  [mkStepTask "obj" stepCa "a", mkStepTask "obj" stepCb "b"]

/-- C3 counterexample. The claim says the Builder fails with an error whose
message cites the concrete cycle path (for steps a depending on b and b on
a: citing "a -> b -> a"); the engine Planner Builder instead raises only
the generic "Cycle detected in Execution Plan.", which contains no arrow
character at all — unlike any rendered cycle path. -/
theorem c3_counterexample :
    plannerBuild [stepCa, stepCb] "obj" =
      .error "Cycle detected in Execution Plan." ∧
    '>' ∉ "Cycle detected in Execution Plan.".toList ∧
    '>' ∈ (cycleMsgOf ["a", "b", "a"]).toList := by
  refine ⟨rfl, by decide, by decide⟩

/-- C3 amended: for every step list that passes the id and dependency
checks and whose dependency graph contains a cycle, both Builders fail and
return no graph; the orchestrator Builder's ValueError message cites a
concrete cycle path that is a true cycle of the input graph, while the
engine Planner Builder raises only the generic
"Cycle detected in Execution Plan." that cites no path. -/
theorem c3_cycle_reporting_amended (steps : List RawStep)
    (objective : String) (tasks : List DAGTask)
    (hpass1 : orchPass1 objective [] steps = .ok tasks)
    (hpass2 : checkDeps tasks orchNotFound tasks = .ok ())
    (hcyc : ∃ p, IsCyclePath (taskDeps tasks) p) :
    (∃ e p, orchBuild steps objective = .error e ∧
      IsCyclePath (taskDeps tasks) p ∧ e = cycleMsgOf p) ∧
    plannerBuild steps objective =
      .error "Cycle detected in Execution Plan." := by
  rcases odetectLoop_cycle tasks hcyc with ⟨e, p, hl, hp, he⟩
  have hdet : orchDetect tasks = .error e := by
    unfold orchDetect
    rw [hl]
    rfl
  constructor
  · refine ⟨e, p, ?_, hp, he⟩
    unfold orchBuild
    rw [hpass1]
    dsimp only
    rw [hpass2]
    dsimp only
    rw [hdet]
  · have hp1 := plannerPass1_of_orchPass1 objective steps [] tasks hpass1
    have hp2 := checkDeps_ok_transfer tasks orchNotFound plannerNotFound
      tasks hpass2
    have hpd := plannerDetect_cycle tasks hcyc
    simp only [plannerBuild]
    rw [hp1, hp2]
    dsimp only
    rw [hpd]

/-- C3 witness at the two-step cycle a <-> b. -/
theorem c3_witness :
    (∃ e p, orchBuild [stepCa, stepCb] "obj" = .error e ∧
      IsCyclePath (taskDeps tasksCyc) p ∧ e = cycleMsgOf p) ∧
    plannerBuild [stepCa, stepCb] "obj" =
      .error "Cycle detected in Execution Plan." :=
  c3_cycle_reporting_amended [stepCa, stepCb] "obj" tasksCyc rfl rfl
    ⟨["a", "b", "a"], by exact ⟨by decide, rfl, by decide, by decide, trivial⟩⟩
